import Mathlib

/-!
Verification of a userspace TCP/IPv4 stack (microps variant).

The C sources under scrutiny are shallowly embedded: IPv4 addresses
(`ip_addr_t`) are modelled as the big-endian 32-bit value they denote
(equality and bitwise operations on the stored word coincide with those on
this value, and `ntoh32` becomes the identity), ports as their stored
16-bit big-endian pattern, byte buffers as `List Nat` with every element
below 256, machine arithmetic as `Nat` with explicit reduction modulo
2^w where the C code can wrap.
-/

namespace Microps

/-- 32-bit truncation (uint32_t arithmetic). -/
def mod32 (x : Nat) : Nat := x % 4294967296

/-- 16-bit truncation (uint16_t arithmetic). -/
def mod16 (x : Nat) : Nat := x % 65536

/-- uint32_t subtraction `a - b` (wraps modulo 2^32). -/
def sub32 (a b : Nat) : Nat := (a + 4294967296 - b % 4294967296) % 4294967296

/-- size_t subtraction `a - b` (wraps modulo 2^64). -/
def sub64 (a b : Nat) : Nat :=
  (a + 18446744073709551616 - b % 18446744073709551616) % 18446744073709551616

theorem sub32_of_le {a b : Nat} (hb : b ≤ a) (ha : a < 4294967296) :
    sub32 a b = a - b := by
  unfold sub32
  rw [Nat.mod_eq_of_lt (Nat.lt_of_le_of_lt hb ha)]
  omega

theorem sub64_of_le {a b : Nat} (hb : b ≤ a) (ha : a < 18446744073709551616) :
    sub64 a b = a - b := by
  unfold sub64
  rw [Nat.mod_eq_of_lt (Nat.lt_of_le_of_lt hb ha)]
  omega

/-! ## Checksum

`cksum16` lives in `util.c`, which is not part of the sources under
verification (the spec treats checksum primitives as an external
collaborator and only fixes their interface). -/

/-- Pair a byte stream into 16-bit big-endian words; a trailing lone byte
becomes the high byte of a final word. -/
def words16 : List Nat → List Nat
  | [] => []
  | [b] => [b * 256]
  | b1 :: b2 :: rest => (b1 * 256 + b2) :: words16 rest

/-- Fold the carries of a ones-complement accumulator into 16 bits. -/
def foldCarry (fuel : Nat) (sum : Nat) : Nat :=
  match fuel with
  | 0 => sum
  | fuel + 1 => if sum < 65536 then sum else foldCarry fuel (sum / 65536 + sum % 65536)

/-- Modelled from the spec: the ones-complement checksum primitive
`cksum16(addr, count, init)` of `util.c` (absent from the sources): sum the
16-bit words of the byte stream together with the partial sum `init`, fold
carries, and return the complement. -/
def cksum16 (bytes : List Nat) (init : Nat) : Nat :=
  65535 - foldCarry (bytes.length + 64) ((words16 bytes).foldl (· + ·) init) % 65536 % 65536

/-! ## IPv4 routing (`ip.c`)

`ip_addr_t` values are carried as the big-endian integer they denote, so
`ntoh32` is the identity here and the bitwise operations coincide with the
ones on the stored word. -/

/-- `IP_ADDR_ANY` (0.0.0.0). -/
def IP_ADDR_ANY : Nat := 0

/-- `IP_ADDR_BROADCAST` (255.255.255.255). -/
def IP_ADDR_BROADCAST : Nat := 4294967295

/-- An IPv4 interface: `struct ip_iface` (unicast, netmask, broadcast). -/
structure IpIface where
  unicast : Nat
  netmask : Nat
  broadcast : Nat
  deriving Repr, DecidableEq

/-- A routing entry: `struct ip_route`.  The interface is carried inline
(the C code stores a pointer). -/
structure IpRoute where
  network : Nat
  netmask : Nat
  nexthop : Nat
  iface : IpIface
  deriving Repr, DecidableEq

/-- The match test of `ip_route_lookup`: `(dst & route->netmask) == route->network`. -/
def routeMatches (dst : Nat) (route : IpRoute) : Bool :=
  dst &&& route.netmask == route.network

/-- The candidate-update loop of `ip_route_lookup`, iterating in list
order: a matching route replaces the candidate only when there is no
candidate yet or its netmask (as a big-endian integer, `ntoh32`) is
strictly larger than the candidate's. -/
def ip_route_lookup_loop (dst : Nat) : List IpRoute → Option IpRoute → Option IpRoute
  | [], candidate => candidate
  | route :: rest, candidate =>
    if routeMatches dst route then
      match candidate with
      | none => ip_route_lookup_loop dst rest (some route)
      | some c =>
        if c.netmask < route.netmask then ip_route_lookup_loop dst rest (some route)
        else ip_route_lookup_loop dst rest (some c)
    else
      ip_route_lookup_loop dst rest candidate

/-- `ip_route_lookup(dst)`: longest-prefix match over the route list. -/
def ip_route_lookup (routes : List IpRoute) (dst : Nat) : Option IpRoute :=
  ip_route_lookup_loop dst routes none

theorem ip_route_lookup_loop_sound (dst : Nat) (routes : List IpRoute)
    (candidate : Option IpRoute)
    (hc : ∀ c, candidate = some c → routeMatches dst c = true)
    (r : IpRoute) (h : ip_route_lookup_loop dst routes candidate = some r) :
    (r ∈ routes ∨ candidate = some r) ∧ routeMatches dst r = true := by
  induction routes generalizing candidate with
  | nil =>
    simp only [ip_route_lookup_loop] at h
    exact ⟨Or.inr h, hc r h⟩
  | cons route rest ih =>
    simp only [ip_route_lookup_loop] at h
    by_cases hm : routeMatches dst route
    · simp only [hm, if_true] at h
      match hcand : candidate with
      | none =>
        subst hcand
        have := ih (some route) (by intro c hcc; cases hcc; exact hm) h
        rcases this with ⟨hmem, hmatch⟩
        refine ⟨?_, hmatch⟩
        rcases hmem with hmem | hmem
        · exact Or.inl (List.mem_cons_of_mem _ hmem)
        · cases hmem; exact Or.inl (List.mem_cons_self _ _)
      | some c =>
        subst hcand
        by_cases hlt : c.netmask < route.netmask
        · simp only [hlt, if_true] at h
          have := ih (some route) (by intro x hx; cases hx; exact hm) h
          rcases this with ⟨hmem, hmatch⟩
          refine ⟨?_, hmatch⟩
          rcases hmem with hmem | hmem
          · exact Or.inl (List.mem_cons_of_mem _ hmem)
          · cases hmem; exact Or.inl (List.mem_cons_self _ _)
        · simp only [hlt, if_false] at h
          have := ih (some c) hc h
          rcases this with ⟨hmem, hmatch⟩
          refine ⟨?_, hmatch⟩
          rcases hmem with hmem | hmem
          · exact Or.inl (List.mem_cons_of_mem _ hmem)
          · exact Or.inr hmem
    · simp only [hm, if_false] at h
      have := ih candidate hc h
      rcases this with ⟨hmem, hmatch⟩
      refine ⟨?_, hmatch⟩
      rcases hmem with hmem | hmem
      · exact Or.inl (List.mem_cons_of_mem _ hmem)
      · exact Or.inr hmem

theorem ip_route_lookup_loop_max (dst : Nat) (routes : List IpRoute)
    (candidate : Option IpRoute) (r : IpRoute)
    (h : ip_route_lookup_loop dst routes candidate = some r) :
    (∀ r', r' ∈ routes → routeMatches dst r' = true → r'.netmask ≤ r.netmask) ∧
    (∀ c, candidate = some c → c.netmask ≤ r.netmask) := by
  induction routes generalizing candidate with
  | nil =>
    simp only [ip_route_lookup_loop] at h
    refine ⟨?_, ?_⟩
    · intro r' hr'
      cases hr'
    intro c hcc
    rw [hcc] at h
    cases h
    exact Nat.le_refl _
  | cons route rest ih =>
    simp only [ip_route_lookup_loop] at h
    by_cases hm : routeMatches dst route
    · simp only [hm, if_true] at h
      match hcand : candidate with
      | none =>
        subst hcand
        have := ih (some route) h
        refine ⟨?_, by intro c hcc; cases hcc⟩
        intro r' hr' hmr'
        rcases List.mem_cons.mp hr' with hr' | hr'
        · subst hr'; exact this.2 _ rfl
        · exact this.1 r' hr' hmr'
      | some c =>
        subst hcand
        by_cases hlt : c.netmask < route.netmask
        · simp only [hlt, if_true] at h
          have := ih (some route) h
          refine ⟨?_, ?_⟩
          · intro r' hr' hmr'
            rcases List.mem_cons.mp hr' with hr' | hr'
            · subst hr'; exact this.2 _ rfl
            · exact this.1 r' hr' hmr'
          · intro x hx
            cases hx
            exact Nat.le_trans (Nat.le_of_lt hlt) (this.2 _ rfl)
        · simp only [hlt, if_false] at h
          have := ih (some c) h
          refine ⟨?_, ?_⟩
          · intro r' hr' hmr'
            rcases List.mem_cons.mp hr' with hr' | hr'
            · subst hr'
              exact Nat.le_trans (Nat.le_of_not_lt hlt) (this.2 _ rfl)
            · exact this.1 r' hr' hmr'
          · intro x hx
            cases hx
            exact this.2 _ rfl
    · simp only [hm, if_false] at h
      have := ih candidate h
      refine ⟨?_, this.2⟩
      intro r' hr' hmr'
      rcases List.mem_cons.mp hr' with hr' | hr'
      · subst hr'; rw [hmr'] at hm; exact absurd rfl hm
      · exact this.1 r' hr' hmr'

theorem ip_route_lookup_loop_some_ne_none (dst : Nat) (routes : List IpRoute)
    (c : IpRoute) : ip_route_lookup_loop dst routes (some c) ≠ none := by
  induction routes generalizing c with
  | nil => simp [ip_route_lookup_loop]
  | cons route rest ih =>
    simp only [ip_route_lookup_loop]
    by_cases hm : routeMatches dst route
    · simp only [hm, if_true]
      by_cases hlt : c.netmask < route.netmask
      · simp only [hlt, if_true]; exact ih route
      · simp only [hlt, if_false]; exact ih c
    · simp only [hm, if_false]; exact ih c

theorem ip_route_lookup_loop_none (dst : Nat) (routes : List IpRoute)
    (h : ip_route_lookup_loop dst routes none = none) :
    ∀ r', r' ∈ routes → routeMatches dst r' = true → False := by
  induction routes with
  | nil => intro r' hr'; cases hr'
  | cons route rest ih =>
    intro r' hr' hmr'
    simp only [ip_route_lookup_loop] at h
    by_cases hm : routeMatches dst route
    · simp only [hm, if_true] at h
      exact ip_route_lookup_loop_some_ne_none dst rest route h
    · simp only [hm, if_false] at h
      rcases List.mem_cons.mp hr' with hr' | hr'
      · subst hr'; rw [hmr'] at hm; exact absurd rfl hm
      · exact ih h r' hr' hmr'

/-- A demo route table: an on-link /8 route and a more specific /16 route
(the spec's route-LPM scenario). -/
def demoIface8 : IpIface :=
  { unicast := 167772161, netmask := 4278190080, broadcast := 184549375 }

def demoIface16 : IpIface :=
  { unicast := 167837697, netmask := 4294901760, broadcast := 167903231 }

def demoRoute8 : IpRoute :=
  { network := 167772160, netmask := 4278190080, nexthop := 0, iface := demoIface8 }

def demoRoute16 : IpRoute :=
  { network := 167837696, netmask := 4294901760, nexthop := 0, iface := demoIface16 }

def demoRoutes : List IpRoute := [demoRoute8, demoRoute16]

/-- C6: for every route table and destination, `ip_route_lookup` returns a
route that matches `(dst & netmask) == network` and whose netmask is maximal
(as a big-endian unsigned integer) among all matching routes, and returns
nothing exactly when no route matches. -/
theorem ip_route_lookup_correct (routes : List IpRoute) (dst : Nat) :
    (∀ r, ip_route_lookup routes dst = some r →
      r ∈ routes ∧ routeMatches dst r = true ∧
      ∀ r', r' ∈ routes → routeMatches dst r' = true → r'.netmask ≤ r.netmask) ∧
    (ip_route_lookup routes dst = none →
      ∀ r', r' ∈ routes → routeMatches dst r' = false) := by
  constructor
  · intro r h
    have hs := ip_route_lookup_loop_sound dst routes none (by intro c hc; cases hc) r h
    have hmax := ip_route_lookup_loop_max dst routes none r h
    refine ⟨?_, hs.2, hmax.1⟩
    rcases hs.1 with hmem | hmem
    · exact hmem
    · cases hmem
  · intro h r' hr'
    by_contra hne
    exact ip_route_lookup_loop_none dst routes h r' hr'
      (by revert hne; cases routeMatches dst r' <;> simp)

/-- Witness for C6 at the demo table: looking up 10.1.2.3 yields the /16
route, which matches and dominates the /8 route's netmask. -/
theorem ip_route_lookup_correct_witness :
    ip_route_lookup demoRoutes 167838211 = some demoRoute16 ∧
    routeMatches 167838211 demoRoute16 = true ∧
    demoRoute8.netmask ≤ demoRoute16.netmask := by
  have hlk : ip_route_lookup demoRoutes 167838211 = some demoRoute16 := by decide
  have h := (ip_route_lookup_correct demoRoutes 167838211).1 demoRoute16 hlk
  exact ⟨hlk, h.2.1, h.2.2 demoRoute8 (by decide) (by decide)⟩

/-! ## IPv4 input (`ip.c`, `ip_input`) -/

/-- Big-endian 16-bit field from two bytes (`ntoh16` of a stored field). -/
def be16 (b1 b2 : Nat) : Nat := b1 * 256 + b2

/-- Big-endian 32-bit field from four bytes. -/
def be32 (b1 b2 b3 b4 : Nat) : Nat := ((b1 * 256 + b2) * 256 + b3) * 256 + b4

/-- What `ip_input` hands to the upper-protocol handler on acceptance. -/
structure IpDemux where
  protocol : Nat
  payload : List Nat
  src : Nat
  dst : Nat
  iface : IpIface
  deriving Repr, DecidableEq

/-- The `vhl` byte of an IPv4 header (`hdr->vhl`). -/
def hdrVhl (data : List Nat) : Nat := data.getD 0 0

/-- Header length in bytes: `(hdr->vhl & 0x0f) << 2`. -/
def hdrHlen (data : List Nat) : Nat := hdrVhl data % 16 * 4

/-- `ntoh16(hdr->total)`. -/
def hdrTotal (data : List Nat) : Nat := be16 (data.getD 2 0) (data.getD 3 0)

/-- `ntoh16(hdr->offset)` (fragment flags and offset). -/
def hdrOffset (data : List Nat) : Nat := be16 (data.getD 6 0) (data.getD 7 0)

/-- `hdr->protocol`. -/
def hdrProtocol (data : List Nat) : Nat := data.getD 9 0

/-- `hdr->src`. -/
def hdrSrc (data : List Nat) : Nat :=
  be32 (data.getD 12 0) (data.getD 13 0) (data.getD 14 0) (data.getD 15 0)

/-- `hdr->dst`. -/
def hdrDst (data : List Nat) : Nat :=
  be32 (data.getD 16 0) (data.getD 17 0) (data.getD 18 0) (data.getD 19 0)

/-- `ip_input(data, len, dev)`: header validation and demultiplexing.
`protocols` is the list of registered IP protocol numbers and `iface` the
device's IPv4 interface (`net_device_get_iface`).  Returns `some` exactly
when the datagram is delivered to an upper-protocol handler.  The payload
slice is `total - hlen` bytes starting at `hlen` (when `total < hlen` the C
code would pass a negative length converted to `size_t`; the list can carry
at most the bytes that exist, and no claim depends on that corner). -/
def ip_input (protocols : List Nat) (iface : Option IpIface) (data : List Nat) :
    Option IpDemux :=
  if data.length < 20 then none
  else if hdrVhl data / 16 ≠ 4 then none
  else if data.length < hdrHlen data then none
  else if data.length < hdrTotal data then none
  else if cksum16 (data.take (hdrHlen data)) 0 ≠ 0 then none
  else if hdrOffset data &&& 8192 ≠ 0 ∨ hdrOffset data &&& 8191 ≠ 0 then none
  else
    match iface with
    | none => none
    | some ifc =>
      if hdrDst data ≠ ifc.unicast ∧ hdrDst data ≠ ifc.broadcast ∧
          hdrDst data ≠ IP_ADDR_BROADCAST then none
      else if protocols.contains (hdrProtocol data) then
        some { protocol := hdrProtocol data
               payload := (data.drop (hdrHlen data)).take (hdrTotal data - hdrHlen data)
               src := hdrSrc data
               dst := hdrDst data
               iface := ifc }
      else none

/-- C2 (amended): every datagram `ip_input` accepts has version 4, at least
20 received bytes, a header-length field whose byte count fits the received
length, a total length bounded by the received length, a verifying header
checksum over the `hlen` header bytes, and zero MF flag and fragment
offset.  (The original claim's `hlen ≥ 5` is not enforced by the code; see
the counterexample.) -/
theorem ip_input_accept_valid (protocols : List Nat) (iface : Option IpIface)
    (data : List Nat) (d : IpDemux)
    (h : ip_input protocols iface data = some d) :
    hdrVhl data / 16 = 4 ∧
    20 ≤ data.length ∧
    hdrHlen data ≤ data.length ∧
    hdrTotal data ≤ data.length ∧
    cksum16 (data.take (hdrHlen data)) 0 = 0 ∧
    hdrOffset data &&& 8192 = 0 ∧
    hdrOffset data &&& 8191 = 0 := by
  unfold ip_input at h
  by_cases h1 : data.length < 20
  · rw [if_pos h1] at h; cases h
  rw [if_neg h1] at h
  by_cases h2 : hdrVhl data / 16 ≠ 4
  · rw [if_pos h2] at h; cases h
  rw [if_neg h2] at h
  by_cases h3 : data.length < hdrHlen data
  · rw [if_pos h3] at h; cases h
  rw [if_neg h3] at h
  by_cases h4 : data.length < hdrTotal data
  · rw [if_pos h4] at h; cases h
  rw [if_neg h4] at h
  by_cases h5 : cksum16 (data.take (hdrHlen data)) 0 ≠ 0
  · rw [if_pos h5] at h; cases h
  rw [if_neg h5] at h
  by_cases h6 : hdrOffset data &&& 8192 ≠ 0 ∨ hdrOffset data &&& 8191 ≠ 0
  · rw [if_pos h6] at h; cases h
  rw [if_neg h6] at h
  push_neg at h2 h5 h6
  exact ⟨h2, Nat.le_of_not_lt h1, Nat.le_of_not_lt h3, Nat.le_of_not_lt h4, h5, h6.1, h6.2⟩

/-- The interface used by the C2 counterexample (192.0.2.2/24). -/
def cexIface : IpIface :=
  { unicast := 3221225986, netmask := 4294967040, broadcast := 3221226239 }

/-- A 20-byte datagram whose header-length field is 2 (8 header bytes,
fewer than the 20 of a minimal IPv4 header): version 4, total length 20,
id chosen so the checksum over the 8 header bytes verifies, no fragment
bits, protocol 1, destination 192.0.2.2. -/
def cexPacket : List Nat :=
  [66, 0, 0, 20, 189, 235, 0, 0, 255, 1, 0, 0, 192, 0, 2, 1, 192, 0, 2, 2]

/-- C2 counterexample: `ip_input` accepts `cexPacket` (delivers it to the
registered protocol-1 handler) even though its header-length field is 2,
refuting the claim that every accepted datagram has `hlen ≥ 5`. -/
theorem ip_input_accepts_short_hlen :
    (ip_input [1] (some cexIface) cexPacket).isSome = true ∧
    hdrVhl cexPacket % 16 < 5 := by decide

/-! ## ARP resolver (`arp.c`) -/

/-- `ARP_CACHE_STATE_*`. -/
inductive ArpCacheState where
  | free
  | incomplete
  | resolved
  | static
  deriving Repr, DecidableEq

/-- `struct arp_cache`: state, protocol address, hardware address (6
bytes), last-update timestamp (`struct timeval`, modelled as a Nat). -/
structure ArpCacheEntry where
  state : ArpCacheState
  pa : Nat
  ha : List Nat
  timestamp : Nat
  deriving Repr, DecidableEq

/-- The all-clear entry that `arp_cache_delete` leaves behind. -/
def arpEntryCleared : ArpCacheEntry :=
  { state := .free, pa := 0, ha := List.replicate 6 0, timestamp := 0 }

/-- `arp_cache_select(pa)`: the first entry that is not FREE and carries
`pa`, with its index. -/
def arp_cache_select_from (pa : Nat) : List ArpCacheEntry → Nat → Option (Nat × ArpCacheEntry)
  | [], _ => none
  | e :: rest, i =>
    if e.state ≠ ArpCacheState.free ∧ e.pa = pa then some (i, e)
    else arp_cache_select_from pa rest (i + 1)

def arp_cache_select (caches : List ArpCacheEntry) (pa : Nat) : Option (Nat × ArpCacheEntry) :=
  arp_cache_select_from pa caches 0

/-- The index of the first FREE entry, if any (`arp_cache_alloc`'s early
return). -/
def arpFirstFree : List ArpCacheEntry → Nat → Option Nat
  | [], _ => none
  | e :: rest, i =>
    if e.state = ArpCacheState.free then some i else arpFirstFree rest (i + 1)

/-- The `oldest` scan of `arp_cache_alloc`: starting from a best-so-far
candidate, replace it only on a strictly older timestamp (`timercmp >`), so
the first entry achieving the minimum wins. -/
def arpOldest : List ArpCacheEntry → Nat → Nat × ArpCacheEntry → Nat × ArpCacheEntry
  | [], _, best => best
  | e :: rest, i, best =>
    if best.2.timestamp > e.timestamp then arpOldest rest (i + 1) (i, e)
    else arpOldest rest (i + 1) best

/-- `arp_cache_alloc()`: return the first FREE entry; with none, evict
(clear) the entry with the oldest timestamp and return it.  Yields the
chosen index and the cache after the possible eviction; `none` only for an
empty cache (the C array has 32 entries). -/
def arp_cache_alloc (caches : List ArpCacheEntry) : Option (Nat × List ArpCacheEntry) :=
  match arpFirstFree caches 0 with
  | some i => some (i, caches)
  | none =>
    match caches with
    | [] => none
    | e :: rest =>
      let old := arpOldest rest 1 (0, e)
      some (old.1, caches.set old.1 arpEntryCleared)

/-- `ARP_RESOLVE_*` outcomes; `found` carries the hardware address copied
out. -/
inductive ArpResolveResult where
  | error
  | incomplete
  | found (ha : List Nat)
  deriving Repr, DecidableEq

/-- The outcome of `arp_resolve`: result code, cache afterwards, and
whether a broadcast ARP REQUEST was transmitted (`arp_request`). -/
structure ArpResolveOut where
  res : ArpResolveResult
  caches : List ArpCacheEntry
  requestSent : Bool
  deriving Repr, DecidableEq

/-- `arp_resolve(iface, pa, ha)`.  `isEthernet` and `isIpFamily` stand for
the two guard checks on the interface's device type and address family;
`now` is `gettimeofday` at the INCOMPLETE insertion. -/
def arp_resolve (isEthernet isIpFamily : Bool) (caches : List ArpCacheEntry)
    (pa now : Nat) : ArpResolveOut :=
  if !isEthernet then ⟨.error, caches, false⟩
  else if !isIpFamily then ⟨.error, caches, false⟩
  else
    match arp_cache_select caches pa with
    | none =>
      match arp_cache_alloc caches with
      | none => ⟨.error, caches, false⟩
      | some (idx, caches') =>
        ⟨.incomplete,
         caches'.set idx { state := .incomplete, pa := pa
                           ha := (caches'.getD idx arpEntryCleared).ha, timestamp := now },
         true⟩
    | some (_, entry) =>
      if entry.state = ArpCacheState.incomplete then ⟨.incomplete, caches, true⟩
      else ⟨.found entry.ha, caches, false⟩

theorem arp_cache_select_from_mem (pa : Nat) (caches : List ArpCacheEntry) (i0 : Nat)
    (i : Nat) (e : ArpCacheEntry) (h : arp_cache_select_from pa caches i0 = some (i, e)) :
    e ∈ caches ∧ e.state ≠ ArpCacheState.free ∧ e.pa = pa := by
  induction caches generalizing i0 with
  | nil => cases h
  | cons x rest ih =>
    simp only [arp_cache_select_from] at h
    by_cases hx : x.state ≠ ArpCacheState.free ∧ x.pa = pa
    · rw [if_pos hx] at h
      cases h
      exact ⟨List.mem_cons_self _ _, hx.1, hx.2⟩
    · rw [if_neg hx] at h
      have := ih (i0 + 1) h
      exact ⟨List.mem_cons_of_mem _ this.1, this.2⟩

theorem arp_cache_select_from_none (pa : Nat) (caches : List ArpCacheEntry) (i0 : Nat)
    (h : arp_cache_select_from pa caches i0 = none) :
    ∀ e, e ∈ caches → e.state ≠ ArpCacheState.free → e.pa ≠ pa := by
  induction caches generalizing i0 with
  | nil => intro e he; cases he
  | cons x rest ih =>
    intro e he hst
    simp only [arp_cache_select_from] at h
    by_cases hx : x.state ≠ ArpCacheState.free ∧ x.pa = pa
    · rw [if_pos hx] at h; cases h
    · rw [if_neg hx] at h
      rcases List.mem_cons.mp he with he | he
      · subst he
        intro hpa
        exact hx ⟨hst, hpa⟩
      · exact ih (i0 + 1) h e he hst

theorem arp_cache_select_isSome (pa : Nat) (caches : List ArpCacheEntry)
    (e : ArpCacheEntry) (he : e ∈ caches) (hst : e.state ≠ ArpCacheState.free)
    (hpa : e.pa = pa) : (arp_cache_select caches pa).isSome = true := by
  cases hsel : arp_cache_select caches pa with
  | some v => rfl
  | none => exact absurd hpa (arp_cache_select_from_none pa caches 0 hsel e he hst)

/-- Under the cache invariant "at most one non-FREE entry per protocol
address", selecting `pa` returns exactly the non-FREE entry carrying it. -/
theorem arp_cache_select_unique (caches : List ArpCacheEntry) (pa : Nat)
    (huniq : ∀ e1 e2, e1 ∈ caches → e2 ∈ caches →
      e1.state ≠ ArpCacheState.free → e2.state ≠ ArpCacheState.free →
      e1.pa = pa → e2.pa = pa → e1 = e2)
    (e : ArpCacheEntry) (he : e ∈ caches) (hst : e.state ≠ ArpCacheState.free)
    (hpa : e.pa = pa) : ∃ i, arp_cache_select caches pa = some (i, e) := by
  cases hsel : arp_cache_select caches pa with
  | none =>
    have := arp_cache_select_isSome pa caches e he hst hpa
    rw [hsel] at this
    cases this
  | some v =>
    obtain ⟨i, e'⟩ := v
    have hmem := arp_cache_select_from_mem pa caches 0 i e' hsel
    have : e' = e := huniq e' e hmem.1 he hmem.2.1 hst hmem.2.2 hpa
    exact ⟨i, by rw [this]⟩

theorem arpFirstFree_some (caches : List ArpCacheEntry) (i0 i : Nat)
    (h : arpFirstFree caches i0 = some i) :
    i0 ≤ i ∧ i - i0 < caches.length ∧
    (caches.getD (i - i0) arpEntryCleared).state = ArpCacheState.free := by
  induction caches generalizing i0 with
  | nil => cases h
  | cons x rest ih =>
    simp only [arpFirstFree] at h
    by_cases hx : x.state = ArpCacheState.free
    · rw [if_pos hx] at h
      cases h
      simp [hx]
    · rw [if_neg hx] at h
      obtain ⟨h1, h2, h3⟩ := ih (i0 + 1) h
      refine ⟨by omega, by simp; omega, ?_⟩
      have hk : i - i0 = (i - (i0 + 1)) + 1 := by omega
      rw [hk]
      simpa using h3

theorem arpFirstFree_none (caches : List ArpCacheEntry) (i0 : Nat)
    (h : arpFirstFree caches i0 = none) :
    ∀ e, e ∈ caches → e.state ≠ ArpCacheState.free := by
  induction caches generalizing i0 with
  | nil => intro e he; cases he
  | cons x rest ih =>
    intro e he
    simp only [arpFirstFree] at h
    by_cases hx : x.state = ArpCacheState.free
    · rw [if_pos hx] at h; cases h
    · rw [if_neg hx] at h
      rcases List.mem_cons.mp he with he | he
      · subst he; exact hx
      · exact ih (i0 + 1) h e he

theorem arpOldest_spec (l : List ArpCacheEntry) (i : Nat) (best : Nat × ArpCacheEntry) :
    (arpOldest l i best = best ∨
      ∃ k, k < l.length ∧ arpOldest l i best = (i + k, l.getD k arpEntryCleared)) ∧
    (arpOldest l i best).2.timestamp ≤ best.2.timestamp ∧
    (∀ e, e ∈ l → (arpOldest l i best).2.timestamp ≤ e.timestamp) := by
  induction l generalizing i best with
  | nil =>
    refine ⟨Or.inl rfl, Nat.le_refl _, ?_⟩
    intro e he; cases he
  | cons x rest ih =>
    simp only [arpOldest]
    by_cases hx : best.2.timestamp > x.timestamp
    · rw [if_pos hx]
      obtain ⟨hmem, hbest, hall⟩ := ih (i + 1) (i, x)
      refine ⟨?_, ?_, ?_⟩
      · rcases hmem with hmem | ⟨k, hk, hmem⟩
        · exact Or.inr ⟨0, by simp, by simpa using hmem⟩
        · refine Or.inr ⟨k + 1, by simp; omega, ?_⟩
          rw [hmem]
          simp [Nat.add_comm, Nat.add_assoc, Nat.add_left_comm]
      · exact Nat.le_trans hbest (Nat.le_of_lt hx)
      · intro e he
        rcases List.mem_cons.mp he with he | he
        · subst he; exact hbest
        · exact hall e he
    · rw [if_neg hx]
      obtain ⟨hmem, hbest, hall⟩ := ih (i + 1) best
      refine ⟨?_, hbest, ?_⟩
      · rcases hmem with hmem | ⟨k, hk, hmem⟩
        · exact Or.inl hmem
        · refine Or.inr ⟨k + 1, by simp; omega, ?_⟩
          rw [hmem]
          simp [Nat.add_comm, Nat.add_assoc, Nat.add_left_comm]
      · intro e he
        rcases List.mem_cons.mp he with he | he
        · subst he
          exact Nat.le_trans hbest (Nat.le_of_not_lt hx)
        · exact hall e he

/-- `arp_cache_alloc` policy: the chosen slot is a FREE one when the cache
has any (and the cache is untouched); otherwise the entry with the oldest
timestamp is cleared and its slot returned. -/
theorem arp_cache_alloc_spec (caches : List ArpCacheEntry) (idx : Nat)
    (caches' : List ArpCacheEntry) (h : arp_cache_alloc caches = some (idx, caches')) :
    idx < caches.length ∧
    ((∃ f, f ∈ caches ∧ f.state = ArpCacheState.free) →
      (caches.getD idx arpEntryCleared).state = ArpCacheState.free ∧ caches' = caches) ∧
    ((∀ f, f ∈ caches → f.state ≠ ArpCacheState.free) →
      (∀ e, e ∈ caches → (caches.getD idx arpEntryCleared).timestamp ≤ e.timestamp) ∧
      caches' = caches.set idx arpEntryCleared) := by
  unfold arp_cache_alloc at h
  cases hff : arpFirstFree caches 0 with
  | some i =>
    rw [hff] at h
    cases h
    obtain ⟨_, hlen, hfree⟩ := arpFirstFree_some caches 0 idx hff
    simp only [Nat.sub_zero] at hlen hfree
    refine ⟨hlen, fun _ => ⟨hfree, rfl⟩, ?_⟩
    intro hnone
    exact absurd hfree (by
      rw [List.getD_eq_getElem caches arpEntryCleared hlen]
      exact hnone _ (List.getElem_mem hlen))
  | none =>
    rw [hff] at h
    have hnof := arpFirstFree_none caches 0 hff
    match caches with
    | [] => cases h
    | e :: rest =>
      simp only [Option.some.injEq, Prod.mk.injEq] at h
      obtain ⟨hidx, hcaches'⟩ := h
      obtain ⟨hmem, hbest, hall⟩ := arpOldest_spec rest 1 (0, e)
      have hcorr : (arpOldest rest 1 (0, e)).1 < (e :: rest).length ∧
          (e :: rest).getD (arpOldest rest 1 (0, e)).1 arpEntryCleared =
            (arpOldest rest 1 (0, e)).2 := by
        rcases hmem with hm | ⟨k, hk, hm⟩
        · rw [hm]; exact ⟨by simp, rfl⟩
        · rw [hm]
          refine ⟨by simp; omega, ?_⟩
          show (e :: rest).getD (1 + k) arpEntryCleared = rest.getD k arpEntryCleared
          rw [Nat.add_comm]
          simp
      refine ⟨by rw [← hidx]; exact hcorr.1, ?_, ?_⟩
      · intro ⟨f, hf, hfree⟩
        exact absurd hfree (hnof f hf)
      · intro _
        subst hidx
        refine ⟨?_, hcaches'.symm⟩
        intro x hx
        rw [hcorr.2]
        rcases List.mem_cons.mp hx with hx | hx
        · subst hx; exact hbest
        · exact hall x hx

theorem getD_set_self {α : Type} (l : List α) (i : Nat) (a d : α) (h : i < l.length) :
    (l.set i a).getD i d = a := by
  rw [List.getD_eq_getElem _ _ (by simpa using h)]
  exact List.getElem_set_self _

theorem getD_set_ne {α : Type} (l : List α) (i j : Nat) (a d : α) (hij : i ≠ j) :
    (l.set i a).getD j d = l.getD j d := by
  by_cases hj : j < l.length
  · rw [List.getD_eq_getElem _ _ (by simpa using hj), List.getD_eq_getElem _ _ hj]
    exact List.getElem_set_ne hij _
  · rw [List.getD_eq_default _ _ (by simp; omega), List.getD_eq_default _ _ (by omega)]

/-- C4: `arp_resolve` on an Ethernet/IPv4 interface, under the cache
invariant of at most one non-FREE entry per protocol address:
a RESOLVED entry for `pa` yields FOUND with its hardware address and an
untouched cache; with no entry for `pa` a slot is allocated (a FREE slot
when one exists, else the slot with the oldest timestamp is evicted),
rewritten to an INCOMPLETE entry for `pa` with timestamp `now` leaving all
other slots unchanged, a broadcast REQUEST goes out and INCOMPLETE is
returned; an INCOMPLETE entry for `pa` re-sends the REQUEST and returns
INCOMPLETE with an untouched cache. -/
theorem arp_resolve_correct (caches : List ArpCacheEntry) (pa now : Nat)
    (huniq : ∀ e1 e2, e1 ∈ caches → e2 ∈ caches →
      e1.state ≠ ArpCacheState.free → e2.state ≠ ArpCacheState.free →
      e1.pa = pa → e2.pa = pa → e1 = e2) :
    (∀ e, e ∈ caches → e.state = ArpCacheState.resolved → e.pa = pa →
      arp_resolve true true caches pa now = ⟨.found e.ha, caches, false⟩) ∧
    ((∀ e, e ∈ caches → e.state ≠ ArpCacheState.free → e.pa ≠ pa) → caches ≠ [] →
      ∃ idx, idx < caches.length ∧
        (arp_resolve true true caches pa now).res = .incomplete ∧
        (arp_resolve true true caches pa now).requestSent = true ∧
        ((arp_resolve true true caches pa now).caches.getD idx arpEntryCleared).state
          = ArpCacheState.incomplete ∧
        ((arp_resolve true true caches pa now).caches.getD idx arpEntryCleared).pa = pa ∧
        ((arp_resolve true true caches pa now).caches.getD idx arpEntryCleared).timestamp
          = now ∧
        (∀ j, j ≠ idx →
          ((∃ f, f ∈ caches ∧ f.state = ArpCacheState.free) →
            (arp_resolve true true caches pa now).caches.getD j arpEntryCleared =
              caches.getD j arpEntryCleared)) ∧
        ((∃ f, f ∈ caches ∧ f.state = ArpCacheState.free) →
          (caches.getD idx arpEntryCleared).state = ArpCacheState.free) ∧
        ((∀ f, f ∈ caches → f.state ≠ ArpCacheState.free) →
          ∀ e, e ∈ caches → (caches.getD idx arpEntryCleared).timestamp ≤ e.timestamp)) ∧
    (∀ e, e ∈ caches → e.state = ArpCacheState.incomplete → e.pa = pa →
      arp_resolve true true caches pa now = ⟨.incomplete, caches, true⟩) := by
  refine ⟨?_, ?_, ?_⟩
  · intro e he hres hpa
    obtain ⟨i, hsel⟩ := arp_cache_select_unique caches pa huniq e he (by rw [hres]; intro hh; cases hh) hpa
    unfold arp_resolve
    rw [hsel]
    simp only [Bool.not_true, Bool.false_eq_true, if_false]
    rw [if_neg (by rw [hres]; intro hh; cases hh)]
  · intro hnone hne
    have hsel : arp_cache_select caches pa = none := by
      cases hsel : arp_cache_select caches pa with
      | none => rfl
      | some v =>
        obtain ⟨i, e⟩ := v
        have hmem := arp_cache_select_from_mem pa caches 0 i e hsel
        exact absurd hmem.2.2 (hnone e hmem.1 hmem.2.1)
    have halloc : ∃ idx caches', arp_cache_alloc caches = some (idx, caches') := by
      unfold arp_cache_alloc
      cases hff : arpFirstFree caches 0 with
      | some i => exact ⟨i, caches, rfl⟩
      | none =>
        match caches, hne with
        | e :: rest, _ => exact ⟨_, _, rfl⟩
    obtain ⟨idx, caches', halloc⟩ := halloc
    obtain ⟨hlen, hfreecase, hevictcase⟩ := arp_cache_alloc_spec caches idx caches' halloc
    refine ⟨idx, hlen, ?_⟩
    unfold arp_resolve
    rw [hsel, halloc]
    simp only [Bool.not_true, Bool.false_eq_true, if_false]
    have hlen' : caches'.length = caches.length := by
      by_cases hfree : ∃ f, f ∈ caches ∧ f.state = ArpCacheState.free
      · rw [(hfreecase hfree).2]
      · rw [(hevictcase (by
          intro f hf hfs
          exact hfree ⟨f, hf, hfs⟩)).2]
        simp
    refine ⟨by trivial, by trivial, ?_, ?_, ?_, ?_, fun hfree => (hfreecase hfree).1,
      fun hnof => (hevictcase hnof).1⟩
    · rw [getD_set_self _ _ _ _ (by omega)]
    · rw [getD_set_self _ _ _ _ (by omega)]
    · rw [getD_set_self _ _ _ _ (by omega)]
    · intro j hj hfree
      show (caches'.set idx _).getD j arpEntryCleared = _
      rw [getD_set_ne _ _ _ _ _ (fun hh => hj hh.symm), (hfreecase hfree).2]
  · intro e he hinc hpa
    obtain ⟨i, hsel⟩ := arp_cache_select_unique caches pa huniq e he (by rw [hinc]; intro hh; cases hh) hpa
    unfold arp_resolve
    rw [hsel]
    simp only [Bool.not_true, Bool.false_eq_true, if_false]
    rw [if_pos hinc]

/-- A demo ARP cache for the C4 witness: one RESOLVED entry among FREE
slots. -/
def demoArpHa : List Nat := [170, 187, 204, 221, 238, 255]

def demoArpCaches : List ArpCacheEntry :=
  [{ state := .resolved, pa := 3221225985, ha := demoArpHa, timestamp := 5 },
   arpEntryCleared, arpEntryCleared, arpEntryCleared]

/-- Witness for C4: resolving the cached address 192.0.2.1 on the demo
cache returns FOUND with the stored hardware address. -/
theorem arp_resolve_correct_witness :
    arp_resolve true true demoArpCaches 3221225985 7 =
      ⟨.found demoArpHa, demoArpCaches, false⟩ := by
  exact (arp_resolve_correct demoArpCaches 3221225985 7 (by
    intro e1 e2 h1 h2 hs1 hs2 hp1 hp2
    simp only [demoArpCaches, List.mem_cons, List.not_mem_nil, or_false] at h1 h2
    rcases h1 with h1 | h1 | h1 | h1 <;> rcases h2 with h2 | h2 | h2 | h2 <;>
      subst h1 <;> subst h2 <;> simp_all [arpEntryCleared])).1
    { state := .resolved, pa := 3221225985, ha := demoArpHa, timestamp := 5 }
    (by decide) rfl rfl

/-! ## IPv4 output (`ip.c`, `ip_output` / `ip_output_core` /
`ip_output_device`) and the device layer (`net.c`, `net_device_output`) -/

/-- The slice of `struct net_device` the output path consumes. -/
structure NetDevice where
  mtu : Nat
  up : Bool
  needArp : Bool
  isEthernet : Bool
  broadcastHw : List Nat
  deriving Repr, DecidableEq

/-- Outcome of handing a datagram to the device layer: transmitted with a
resolved hardware address, dropped pending ARP resolution
(`ARP_RESOLVE_INCOMPLETE`), or failed. -/
inductive DevOut where
  | ok (frame : List Nat) (hw : List Nat)
  | incomplete
  | error
  deriving Repr, DecidableEq

/-- `net_device_output(dev, type, data, len, dst)`: refuse when the device
is not UP or the frame exceeds the MTU, else transmit. -/
def net_device_output (dev : NetDevice) (data : List Nat) (hw : List Nat) : DevOut :=
  if !dev.up then .error
  else if dev.mtu < data.length then .error
  else .ok data hw

/-- `ip_output_device(iface, data, len, dst)`: resolve the hardware address
(broadcast short-circuit, else ARP) when the device needs ARP, propagating
a non-FOUND resolution result; `hwaddr` stays zero-filled otherwise. -/
def ip_output_device (dev : NetDevice) (iface : IpIface) (caches : List ArpCacheEntry)
    (now : Nat) (data : List Nat) (dst : Nat) : DevOut :=
  if dev.needArp then
    if dst = iface.broadcast ∨ dst = IP_ADDR_BROADCAST then
      net_device_output dev data dev.broadcastHw
    else
      match (arp_resolve dev.isEthernet true caches dst now).res with
      | .found ha => net_device_output dev data ha
      | .incomplete => .incomplete
      | .error => .error
  else net_device_output dev data (List.replicate 16 0)

/-- The 20 header bytes `ip_output_core` assembles, with the checksum field
still zero: `v=4, hl=5, tos=0, total, id, offset, ttl=255, protocol, sum=0,
src, dst`. -/
def ip_hdr_bytes_nosum (protocol total id offset src dst : Nat) : List Nat :=
  69 :: 0 :: (total / 256 % 256) :: (total % 256) ::
  (id / 256 % 256) :: (id % 256) ::
  (offset / 256 % 256) :: (offset % 256) ::
  255 :: protocol :: 0 :: 0 ::
  (src / 16777216 % 256) :: (src / 65536 % 256) :: (src / 256 % 256) :: (src % 256) ::
  (dst / 16777216 % 256) :: (dst / 65536 % 256) :: (dst / 256 % 256) :: (dst % 256) :: []

/-- The same header with `hdr->sum` filled in
(`hdr->sum = cksum16(hdr, hlen, 0)` over the zero-sum header). -/
def ip_hdr_bytes (protocol total id offset src dst : Nat) : List Nat :=
  let s := cksum16 (ip_hdr_bytes_nosum protocol total id offset src dst) 0
  69 :: 0 :: (total / 256 % 256) :: (total % 256) ::
  (id / 256 % 256) :: (id % 256) ::
  (offset / 256 % 256) :: (offset % 256) ::
  255 :: protocol :: (s / 256 % 256) :: (s % 256) ::
  (src / 16777216 % 256) :: (src / 65536 % 256) :: (src / 256 % 256) :: (src % 256) ::
  (dst / 16777216 % 256) :: (dst / 65536 % 256) :: (dst / 256 % 256) :: (dst % 256) :: []

/-- `ip_output_core`: build the datagram and hand it to the device. -/
def ip_output_core (dev : NetDevice) (iface : IpIface) (caches : List ArpCacheEntry)
    (now : Nat) (protocol : Nat) (data : List Nat) (src dst nexthop id offset : Nat) :
    List Nat × DevOut :=
  let buf := ip_hdr_bytes protocol (20 + data.length) id offset src dst ++ data
  (buf, ip_output_device dev iface caches now buf nexthop)

/-- `ip_output(protocol, data, len, src, dst)`.  `devOf` recovers the
device an interface is attached to, `id` is the value drawn from
`ip_generate_id`, `caches`/`now` feed the ARP resolver.  Returns the
assembled datagram and the device outcome unless a validation step or the
device errors out (an INCOMPLETE ARP resolution is not `-1`, so the call
still reports success while the datagram is dropped). -/
def ip_output (routes : List IpRoute) (devOf : IpIface → NetDevice)
    (caches : List ArpCacheEntry) (now id : Nat) (protocol : Nat) (data : List Nat)
    (src dst : Nat) : Option (List Nat × DevOut) :=
  if src = IP_ADDR_ANY ∧ dst = IP_ADDR_BROADCAST then none
  else
    match ip_route_lookup routes dst with
    | none => none
    | some route =>
      if src ≠ IP_ADDR_ANY ∧ src ≠ route.iface.unicast then none
      else if (devOf route.iface).mtu < 20 + data.length then none
      else
        match ip_output_core (devOf route.iface) route.iface caches now protocol
            data route.iface.unicast dst
            (if route.nexthop ≠ IP_ADDR_ANY then route.nexthop else dst) id 0 with
        | (_, .error) => none
        | (buf, .incomplete) => some (buf, .incomplete)
        | (buf, .ok f hw) => some (buf, .ok f hw)

theorem be32_of_bytes (n : Nat) (h : n < 4294967296) :
    be32 (n / 16777216 % 256) (n / 65536 % 256) (n / 256 % 256) (n % 256) = n := by
  unfold be32
  omega

/-- C10: every datagram a successful `ip_output` call emits carries the
selected route's interface unicast address in its IPv4 source field — in
particular a caller-supplied source of 0.0.0.0 is replaced by the routed
interface's unicast (the source check forces any other caller-supplied
source to equal that unicast anyway). -/
theorem ip_output_src_is_iface_unicast (routes : List IpRoute) (devOf : IpIface → NetDevice)
    (caches : List ArpCacheEntry) (now id protocol : Nat) (data : List Nat)
    (src dst : Nat) (out : List Nat × DevOut)
    (haddr : ∀ r, r ∈ routes → r.iface.unicast < 4294967296)
    (h : ip_output routes devOf caches now id protocol data src dst = some out) :
    ∃ route, ip_route_lookup routes dst = some route ∧
      hdrSrc out.1 = route.iface.unicast := by
  unfold ip_output at h
  split at h
  · cases h
  split at h
  · cases h
  rename_i route hroute
  split at h
  · cases h
  split at h
  · cases h
  refine ⟨route, hroute, ?_⟩
  have hbuf : out.1 = ip_hdr_bytes protocol (20 + data.length) id 0
      route.iface.unicast dst ++ data := by
    split at h
    · cases h
    · rename_i buf heq
      cases h
      exact (congrArg Prod.fst heq).symm
    · rename_i buf f hw heq
      cases h
      exact (congrArg Prod.fst heq).symm
  rw [hbuf]
  have hmem : route ∈ routes := ((ip_route_lookup_correct routes dst).1 route hroute).1
  have hlt := haddr route hmem
  show hdrSrc _ = route.iface.unicast
  unfold hdrSrc ip_hdr_bytes
  simp only [List.cons_append, List.nil_append, List.getD_cons_succ, List.getD_cons_zero]
  exact be32_of_bytes route.iface.unicast hlt

/-- The loopback-like device used by the C10 witness. -/
def demoDev : NetDevice :=
  { mtu := 65535, up := true, needArp := false, isEthernet := false, broadcastHw := [] }

/-- Witness for C10: sending from the wildcard source 0.0.0.0 to 10.0.0.3
over the demo route table emits the /8 interface's unicast 10.0.0.1 as the
source address, not 0.0.0.0. -/
theorem ip_output_src_is_iface_unicast_witness :
    ∃ out, ip_output demoRoutes (fun _ => demoDev) [] 0 128 17 [] 0 167772163 = some out ∧
      hdrSrc out.1 = demoIface8.unicast ∧ demoIface8.unicast ≠ 0 := by
  cases hcase : ip_output demoRoutes (fun _ => demoDev) [] 0 128 17 [] 0 167772163 with
  | none => exact absurd hcase (by decide)
  | some out =>
    obtain ⟨route, hroute, hsrc⟩ := ip_output_src_is_iface_unicast demoRoutes
      (fun _ => demoDev) [] 0 128 17 [] 0 167772163 out (by decide) hcase
    have hr8 : route = demoRoute8 := by
      have hq : ip_route_lookup demoRoutes 167772163 = some demoRoute8 := by decide
      rw [hq] at hroute
      cases hroute
      rfl
    subst hr8
    exact ⟨out, rfl, hsrc, by decide⟩

/-! ## ICMP (`icmp.c`) -/

/-- `icmp_output(type, code, values, data, len, src, dst)`: the arguments
`icmp_output` passes to `ip_output` — protocol `IP_PROTOCOL_ICMP` (1), the
assembled message (header with computed checksum, then the payload), and
the given addresses.  `values` is the 4-byte `hdr->values` word. -/
def icmp_output (ty code : Nat) (values : List Nat) (data : List Nat) (src dst : Nat) :
    Nat × List Nat × Nat × Nat :=
  let s := cksum16 (ty :: code :: 0 :: 0 :: (values ++ data)) 0
  (1, ty :: code :: (s / 256 % 256) :: (s % 256) :: (values ++ data), src, dst)

/-- `icmp_input(data, len, src, dst, iface)`: validate the minimum header
size and the checksum, then answer an ECHO (type 8) with `icmp_output`;
`some` carries the `ip_output` arguments of the reply. -/
def icmp_input (data : List Nat) (src dst ifaceUnicast : Nat) :
    Option (Nat × List Nat × Nat × Nat) :=
  if data.length < 8 then none
  else if cksum16 data 0 ≠ 0 then none
  else if data.getD 0 0 = 8 then
    some (icmp_output 0 (data.getD 1 0) ((data.drop 4).take 4) (data.drop 8)
      ifaceUnicast src)
  else none

/-- C8: a received ICMP message that passes the length and checksum checks
and has type ECHO (8) produces a reply of type ECHOREPLY (0) with the same
code, the same 32-bit values word, a byte-for-byte copy of the request
payload, IP source the receiving interface's unicast address, and IP
destination the request's source address. -/
theorem icmp_input_echo_reply (data : List Nat) (src dst ifaceUnicast : Nat)
    (hlen : 8 ≤ data.length) (hsum : cksum16 data 0 = 0) (hty : data.getD 0 0 = 8) :
    ∃ reply, icmp_input data src dst ifaceUnicast = some (1, reply, ifaceUnicast, src) ∧
      reply.getD 0 0 = 0 ∧
      reply.getD 1 0 = data.getD 1 0 ∧
      (reply.drop 4).take 4 = (data.drop 4).take 4 ∧
      reply.drop 8 = data.drop 8 := by
  unfold icmp_input
  rw [if_neg (by omega), if_neg (by rw [hsum]; exact fun hh => hh rfl), if_pos hty]
  refine ⟨_, rfl, ?_⟩
  have hv : ((data.drop 4).take 4).length = 4 := by
    simp
    omega
  refine ⟨rfl, rfl, ?_, ?_⟩
  · show (((data.drop 4).take 4) ++ data.drop 8).take 4 = (data.drop 4).take 4
    rw [List.take_append_of_le_length (by omega)]
    simp
  · show (((data.drop 4).take 4) ++ data.drop 8).drop 4 = data.drop 8
    rw [List.drop_append_of_le_length (by omega)]
    simp [hv]

/-- A concrete ICMP echo request ("id 1, seq 2, payload `hi`") with a valid
checksum, for the C8 witness. -/
def demoEcho : List Nat := [8, 0, 143, 147, 0, 1, 0, 2, 104, 105]

/-- Witness for C8 on `demoEcho`. -/
theorem icmp_input_echo_reply_witness :
    ∃ reply, icmp_input demoEcho 3221225985 3221225986 3221225986 =
        some (1, reply, 3221225986, 3221225985) ∧
      reply.getD 0 0 = 0 ∧
      reply.getD 1 0 = demoEcho.getD 1 0 ∧
      (reply.drop 4).take 4 = (demoEcho.drop 4).take 4 ∧
      reply.drop 8 = demoEcho.drop 8 :=
  icmp_input_echo_reply demoEcho 3221225985 3221225986 3221225986
    (by decide) (by decide) (by decide)

/-- A proper minimal IPv4 datagram (hlen field 5, valid checksum) for the
C2 witness. -/
def demoIpPacket : List Nat :=
  [69, 0, 0, 20, 0, 0, 0, 0, 255, 1, 55, 229, 192, 0, 2, 1, 192, 0, 2, 2]

/-- Witness for C2 (amended): `ip_input` accepts `demoIpPacket`, and the
accepted datagram exhibits all the validated properties. -/
theorem ip_input_accept_valid_witness :
    hdrVhl demoIpPacket / 16 = 4 ∧
    20 ≤ demoIpPacket.length ∧
    hdrHlen demoIpPacket ≤ demoIpPacket.length ∧
    hdrTotal demoIpPacket ≤ demoIpPacket.length ∧
    cksum16 (demoIpPacket.take (hdrHlen demoIpPacket)) 0 = 0 ∧
    hdrOffset demoIpPacket &&& 8192 = 0 ∧
    hdrOffset demoIpPacket &&& 8191 = 0 := by
  cases hcase : ip_input [1] (some cexIface) demoIpPacket with
  | none => exact absurd hcase (by decide)
  | some d => exact ip_input_accept_valid [1] (some cexIface) demoIpPacket d hcase

/-! ## Stack initialization (`net.c`, `net_init` and the protocol/timer
registries) -/

/-- Handlers registerable with the net core, identified by provenance. -/
inductive NetHandlerTag where
  | arpInput
  | ipInput
  deriving Repr, DecidableEq

/-- Handlers registerable with the IPv4 engine. -/
inductive IpHandlerTag where
  | icmpInput
  | udpInput
  | tcpInput
  deriving Repr, DecidableEq

/-- Subscribers of the cancellation EVENT channel. -/
inductive EventTag where
  | udpEvent
  | tcpEvent
  deriving Repr, DecidableEq

/-- The registries `net_init` and the protocol `*_init` functions touch:
the net-core ethertype registry, the IPv4 protocol registry, the timer
list, and the event subscribers. -/
structure StackRegistries where
  netProtocols : List (Nat × NetHandlerTag)
  ipProtocols : List (Nat × IpHandlerTag)
  timers : List Nat
  eventSubs : List EventTag
  deriving Repr, DecidableEq

/-- The registries before any initialization. -/
def initialRegistries : StackRegistries :=
  { netProtocols := [], ipProtocols := [], timers := [], eventSubs := [] }

/-- `net_protocol_register(type, handler)`: reject duplicates by ethertype,
else prepend. -/
def net_protocol_register (ty : Nat) (handler : NetHandlerTag) (s : StackRegistries) :
    Option StackRegistries :=
  if (s.netProtocols.map Prod.fst).contains ty then none
  else some { s with netProtocols := (ty, handler) :: s.netProtocols }

/-- `ip_protocol_register(type, handler)`: reject duplicates by protocol
number, else prepend. -/
def ip_protocol_register (ty : Nat) (handler : IpHandlerTag) (s : StackRegistries) :
    Option StackRegistries :=
  if (s.ipProtocols.map Prod.fst).contains ty then none
  else some { s with ipProtocols := (ty, handler) :: s.ipProtocols }

/-- Modelled from the spec: `net_event_subscribe` (its definition is not
among the sources; §5 Cancellation fixes that subscribers are recorded and
invoked on the EVENT channel). -/
def net_event_subscribe (tag : EventTag) (s : StackRegistries) : Option StackRegistries :=
  some { s with eventSubs := tag :: s.eventSubs }

/-- `NET_PROTOCOL_TYPE_ARP` = 0x0806. -/
def NET_PROTOCOL_TYPE_ARP : Nat := 2054

/-- `NET_PROTOCOL_TYPE_IP` = 0x0800. -/
def NET_PROTOCOL_TYPE_IP : Nat := 2048

/-- Modelled from the spec: the IPv4 protocol numbers of `ip.h` (the header
is not among the sources; the spec fixes ICMP=1, UDP=17 in §4.8, TCP=6 in
§4.9). -/
def IP_PROTOCOL_ICMP : Nat := 1

def IP_PROTOCOL_UDP : Nat := 17

def IP_PROTOCOL_TCP : Nat := 6

/-- `arp_init()`: register ARP with the net core. -/
def arp_init (s : StackRegistries) : Option StackRegistries :=
  net_protocol_register NET_PROTOCOL_TYPE_ARP .arpInput s

/-- `ip_init()`: register IPv4 with the net core. -/
def ip_init (s : StackRegistries) : Option StackRegistries :=
  net_protocol_register NET_PROTOCOL_TYPE_IP .ipInput s

/-- `icmp_init()`: register ICMP with IPv4. -/
def icmp_init (s : StackRegistries) : Option StackRegistries :=
  ip_protocol_register IP_PROTOCOL_ICMP .icmpInput s

/-- `udp_init()`: register UDP with IPv4 and subscribe to the EVENT
channel. -/
def udp_init (s : StackRegistries) : Option StackRegistries :=
  (ip_protocol_register IP_PROTOCOL_UDP .udpInput s).bind (net_event_subscribe .udpEvent)

/-- `tcp_init()`: register TCP with IPv4 and subscribe to the EVENT
channel.  (Present in `tcp.c` but never called by `net_init` or anything
else.) -/
def tcp_init (s : StackRegistries) : Option StackRegistries :=
  (ip_protocol_register IP_PROTOCOL_TCP .tcpInput s).bind (net_event_subscribe .tcpEvent)

/-- `net_init()`: `intr_init` (does not touch these registries), then
`arp_init`, `ip_init`, `icmp_init`, `udp_init`.  No call to `tcp_init` and
no `net_timer_register` call anywhere in the stack. -/
def net_init (s : StackRegistries) : Option StackRegistries :=
  (((arp_init s).bind ip_init).bind icmp_init).bind udp_init

/-- C3 (divergence witness): after a successful `net_init`, ARP and IPv4
are wired into the net core and ICMP and UDP into IPv4, but no handler for
IP protocol 6 (TCP) is registered — `tcp_init` is never invoked although
`test/step25.c` runs a TCP server right after `net_init` — and the timer
registry stays empty. -/
theorem net_init_missing_tcp_and_timer :
    ∃ s, net_init initialRegistries = some s ∧
      (s.netProtocols.map Prod.fst).contains NET_PROTOCOL_TYPE_ARP = true ∧
      (s.netProtocols.map Prod.fst).contains NET_PROTOCOL_TYPE_IP = true ∧
      (s.ipProtocols.map Prod.fst).contains IP_PROTOCOL_ICMP = true ∧
      (s.ipProtocols.map Prod.fst).contains IP_PROTOCOL_UDP = true ∧
      (s.ipProtocols.map Prod.fst).contains IP_PROTOCOL_TCP = false ∧
      s.timers = [] := by
  refine ⟨_, rfl, ?_⟩
  decide

/-! ## UDP PCB table (`udp.c`)

Only the fields the endpoint-uniqueness claim observes are carried:
`state` and the local endpoint `(addr, port)`.  Ports hold their stored
16-bit big-endian bit pattern. -/

/-- `UDP_PCB_STATE_*`. -/
inductive UdpState where
  | free
  | open
  | closing
  deriving Repr, DecidableEq

/-- The modelled slice of `struct udp_pcb`. -/
structure UdpPcb where
  state : UdpState
  addr : Nat
  port : Nat
  deriving Repr, DecidableEq

/-- A PCB slot as static initialization and `udp_pcb_release` leave it. -/
def udpPcbCleared : UdpPcb := { state := .free, addr := 0, port := 0 }

/-- Modelled from the spec: the byte-order helper `hton16` of `util.c`
(absent from the sources): big-endian wire order on a little-endian host,
i.e. a byte swap. -/
def hton16 (p : Nat) : Nat := p % 256 * 256 + p / 256 % 256

/-- The matching rule of `udp_pcb_select` against an OPEN PCB. -/
def udpMatch (addr port : Nat) (pcb : UdpPcb) : Prop :=
  pcb.state = UdpState.open ∧
  (pcb.addr = IP_ADDR_ANY ∨ addr = IP_ADDR_ANY ∨ pcb.addr = addr) ∧
  pcb.port = port

instance (addr port : Nat) (pcb : UdpPcb) : Decidable (udpMatch addr port pcb) := by
  unfold udpMatch
  infer_instance

/-- The scan of `udp_pcb_select`, returning the first matching index. -/
def udp_pcb_select_from (addr port : Nat) : List UdpPcb → Nat → Option Nat
  | [], _ => none
  | pcb :: rest, i =>
    if udpMatch addr port pcb then some i
    else udp_pcb_select_from addr port rest (i + 1)

/-- `udp_pcb_select(addr, port)`. -/
def udp_pcb_select (t : List UdpPcb) (addr port : Nat) : Option Nat :=
  udp_pcb_select_from addr port t 0

/-- `udp_pcb_get(id)`: the slot, provided the id is in range and the PCB is
OPEN. -/
def udp_pcb_get (t : List UdpPcb) (id : Nat) : Option UdpPcb :=
  if id < t.length then
    if (t.getD id udpPcbCleared).state = UdpState.open then some (t.getD id udpPcbCleared)
    else none
  else none

/-- The first FREE slot (`udp_pcb_alloc`'s scan). -/
def udpFirstFree : List UdpPcb → Nat → Option Nat
  | [], _ => none
  | pcb :: rest, i =>
    if pcb.state = UdpState.free then some i else udpFirstFree rest (i + 1)

/-- `udp_pcb_alloc()` (the allocation step of `udp_open`): flip the first
FREE slot to OPEN. -/
def udp_pcb_alloc (t : List UdpPcb) : Option (Nat × List UdpPcb) :=
  match udpFirstFree t 0 with
  | none => none
  | some i =>
    some (i, t.set i { t.getD i udpPcbCleared with state := UdpState.open })

/-- `udp_pcb_release(pcb)`: move to CLOSING; when the scheduler context
can be destroyed (`destroyOk`, i.e. no sleepers remain) clear the slot to
FREE, otherwise the PCB stays CLOSING with its endpoint. -/
def udp_pcb_release (t : List UdpPcb) (idx : Nat) (destroyOk : Bool) : List UdpPcb :=
  if destroyOk then t.set idx udpPcbCleared
  else t.set idx { t.getD idx udpPcbCleared with state := UdpState.closing }

/-- `udp_close(id)`. -/
def udp_close (t : List UdpPcb) (id : Nat) (destroyOk : Bool) : Option (List UdpPcb) :=
  match udp_pcb_get t id with
  | none => none
  | some _ => some (udp_pcb_release t id destroyOk)

/-- `udp_bind(id, local)`: fail when `udp_pcb_select` finds any OPEN PCB
matching the requested endpoint; otherwise store the endpoint. -/
def udp_bind (t : List UdpPcb) (id : Nat) (addr port : Nat) : Option (List UdpPcb) :=
  match udp_pcb_get t id with
  | none => none
  | some pcb =>
    match udp_pcb_select t addr port with
    | some _ => none
    | none => some (t.set id { pcb with addr := addr, port := port })

/-- The dynamic source-port scan of `udp_sendto`: the first port in
49152..65535 whose big-endian pattern no PCB currently matches. -/
def udp_port_scan (t : List UdpPcb) (addr : Nat) : List Nat → Option Nat
  | [] => none
  | p :: rest =>
    match udp_pcb_select t addr (hton16 p) with
    | none => some (hton16 p)
    | some _ => udp_port_scan t addr rest

/-- The local-endpoint preparation of `udp_sendto(id, ..., foreign)`:
substitute the routed interface's unicast for a wildcard local address
(`routeUnicast` is `ip_route_get_iface(foreign.addr).unicast`, `none` when
no route), and dynamically assign a free source port when the PCB has
none.  Returns the updated table and the local endpoint used. -/
def udp_sendto_prep (t : List UdpPcb) (id : Nat) (routeUnicast : Option Nat) :
    Option (List UdpPcb × Nat × Nat) :=
  match udp_pcb_get t id with
  | none => none
  | some pcb =>
    match (if pcb.addr = IP_ADDR_ANY then routeUnicast else some pcb.addr) with
    | none => none
    | some localAddr =>
      if pcb.port ≠ 0 then some (t, localAddr, pcb.port)
      else
        match udp_port_scan t localAddr (List.range' 49152 16384) with
        | none => none
        | some sp => some (t.set id { pcb with port := sp }, localAddr, sp)

/-- One step of the UDP PCB table: the user API calls (and the release a
sleeping `udp_recvfrom` performs when it finds its PCB CLOSING) that touch
PCB states or local endpoints.  `udp_input` and the cancellation handler
never modify these fields. -/
inductive UdpStep : List UdpPcb → List UdpPcb → Prop where
  | openStep (t : List UdpPcb) (i : Nat) (t' : List UdpPcb) :
      udp_pcb_alloc t = some (i, t') → UdpStep t t'
  | closeStep (t : List UdpPcb) (id : Nat) (ok : Bool) (t' : List UdpPcb) :
      udp_close t id ok = some t' → UdpStep t t'
  | bindStep (t : List UdpPcb) (id addr port : Nat) (t' : List UdpPcb) :
      udp_bind t id addr port = some t' → UdpStep t t'
  | sendtoStep (t : List UdpPcb) (id : Nat) (u : Option Nat) (t' : List UdpPcb)
      (la sp : Nat) :
      udp_sendto_prep t id u = some (t', la, sp) → UdpStep t t'
  | recvCloseStep (t : List UdpPcb) (id : Nat) (ok : Bool) :
      id < t.length → (t.getD id udpPcbCleared).state = UdpState.closing →
      UdpStep t (udp_pcb_release t id ok)

/-- Reachability of the 16-slot table from its initial all-FREE state. -/
def UdpReachable (t : List UdpPcb) : Prop :=
  Relation.ReflTransGen UdpStep (List.replicate 16 udpPcbCleared) t

/-- The endpoint-uniqueness invariant: no two distinct OPEN PCBs carry the
same bound `(addr, port)` (port 0 meaning unbound), and FREE slots are
cleared. -/
def UdpInv (t : List UdpPcb) : Prop :=
  (∀ i j, i < t.length → j < t.length → i ≠ j →
    (t.getD i udpPcbCleared).state = UdpState.open →
    (t.getD j udpPcbCleared).state = UdpState.open →
    (t.getD i udpPcbCleared).port ≠ 0 →
    ¬((t.getD i udpPcbCleared).addr = (t.getD j udpPcbCleared).addr ∧
      (t.getD i udpPcbCleared).port = (t.getD j udpPcbCleared).port)) ∧
  (∀ i, i < t.length → (t.getD i udpPcbCleared).state = UdpState.free →
    t.getD i udpPcbCleared = udpPcbCleared)

theorem udp_pcb_select_from_none (addr port : Nat) (l : List UdpPcb) (i0 : Nat)
    (h : udp_pcb_select_from addr port l i0 = none) :
    ∀ k, k < l.length → ¬udpMatch addr port (l.getD k udpPcbCleared) := by
  induction l generalizing i0 with
  | nil =>
    intro k hk
    simp at hk
  | cons pcb rest ih =>
    intro k hk
    simp only [udp_pcb_select_from] at h
    by_cases hm : udpMatch addr port pcb
    · rw [if_pos hm] at h; cases h
    · rw [if_neg hm] at h
      match k with
      | 0 => simpa using hm
      | k + 1 =>
        have := ih (i0 + 1) h k (by simpa using hk)
        simpa using this

theorem udp_pcb_select_ne_none (t : List UdpPcb) (addr port : Nat) (j : Nat)
    (hj : j < t.length) (hm : udpMatch addr port (t.getD j udpPcbCleared)) :
    udp_pcb_select t addr port ≠ none := by
  intro h
  exact udp_pcb_select_from_none addr port t 0 h j hj hm

theorem udp_pcb_get_spec (t : List UdpPcb) (id : Nat) (pcb : UdpPcb)
    (h : udp_pcb_get t id = some pcb) :
    id < t.length ∧ pcb = t.getD id udpPcbCleared ∧ pcb.state = UdpState.open := by
  unfold udp_pcb_get at h
  by_cases h1 : id < t.length
  · rw [if_pos h1] at h
    by_cases h2 : (t.getD id udpPcbCleared).state = UdpState.open
    · rw [if_pos h2] at h
      cases h
      exact ⟨h1, rfl, h2⟩
    · rw [if_neg h2] at h; cases h
  · rw [if_neg h1] at h; cases h

theorem udpFirstFree_some (l : List UdpPcb) (i0 i : Nat)
    (h : udpFirstFree l i0 = some i) :
    i0 ≤ i ∧ i - i0 < l.length ∧
    (l.getD (i - i0) udpPcbCleared).state = UdpState.free := by
  induction l generalizing i0 with
  | nil => cases h
  | cons x rest ih =>
    simp only [udpFirstFree] at h
    by_cases hx : x.state = UdpState.free
    · rw [if_pos hx] at h
      cases h
      simp [hx]
    · rw [if_neg hx] at h
      obtain ⟨h1, h2, h3⟩ := ih (i0 + 1) h
      refine ⟨by omega, by simp; omega, ?_⟩
      have hk : i - i0 = (i - (i0 + 1)) + 1 := by omega
      rw [hk]
      simpa using h3

theorem udp_port_scan_none (t : List UdpPcb) (addr : Nat) (ports : List Nat) (sp : Nat)
    (h : udp_port_scan t addr ports = some sp) :
    udp_pcb_select t addr sp = none := by
  induction ports with
  | nil => cases h
  | cons p rest ih =>
    simp only [udp_port_scan] at h
    cases hsel : udp_pcb_select t addr (hton16 p) with
    | none =>
      rw [hsel] at h
      cases h
      exact hsel
    | some v =>
      rw [hsel] at h
      exact ih h

/-- Replacing a slot with a non-OPEN PCB (cleared when FREE) preserves the
invariant. -/
theorem udpInv_set_nonopen (t : List UdpPcb) (id : Nat) (newPcb : UdpPcb)
    (hinv : UdpInv t) (hst : newPcb.state ≠ UdpState.open)
    (hfree : newPcb.state = UdpState.free → newPcb = udpPcbCleared) :
    UdpInv (t.set id newPcb) := by
  constructor
  · intro i j hi hj hij hoi hoj hpi
    simp only [List.length_set] at hi hj
    by_cases hieq : id = i
    · subst hieq
      rw [getD_set_self _ _ _ _ (by omega)] at hoi
      exact absurd hoi hst
    by_cases hjeq : id = j
    · subst hjeq
      rw [getD_set_self _ _ _ _ (by omega)] at hoj
      exact absurd hoj hst
    rw [getD_set_ne _ _ _ _ _ hieq] at hoi hpi ⊢
    rw [getD_set_ne _ _ _ _ _ hjeq] at hoj ⊢
    exact hinv.1 i j hi hj hij hoi hoj hpi
  · intro i hi hfi
    simp only [List.length_set] at hi
    by_cases hieq : id = i
    · subst hieq
      rw [getD_set_self _ _ _ _ (by omega)] at hfi ⊢
      exact hfree hfi
    · rw [getD_set_ne _ _ _ _ _ hieq] at hfi ⊢
      exact hinv.2 i hi hfi

/-- Replacing a slot with an OPEN PCB preserves the invariant provided no
other OPEN slot already carries the new non-zero endpoint. -/
theorem udpInv_set_open (t : List UdpPcb) (id : Nat) (newPcb : UdpPcb)
    (hinv : UdpInv t) (hid : id < t.length) (hopen : newPcb.state = UdpState.open)
    (hnoconf : newPcb.port ≠ 0 →
      ∀ j, j < t.length → j ≠ id → (t.getD j udpPcbCleared).state = UdpState.open →
      ¬((t.getD j udpPcbCleared).addr = newPcb.addr ∧
        (t.getD j udpPcbCleared).port = newPcb.port)) :
    UdpInv (t.set id newPcb) := by
  constructor
  · intro i j hi hj hij hoi hoj hpi
    simp only [List.length_set] at hi hj
    by_cases hieq : id = i
    · subst hieq
      rw [getD_set_self _ _ _ _ (by omega)] at hoi hpi ⊢
      by_cases hjeq : id = j
      · omega
      rw [getD_set_ne _ _ _ _ _ hjeq] at hoj ⊢
      intro ⟨ha, hp⟩
      exact hnoconf hpi j hj (fun hh => hij hh.symm) hoj ⟨ha.symm, hp.symm⟩
    by_cases hjeq : id = j
    · subst hjeq
      rw [getD_set_ne _ _ _ _ _ hieq] at hoi hpi ⊢
      rw [getD_set_self _ _ _ _ (by omega)] at hoj ⊢
      intro ⟨ha, hp⟩
      exact hnoconf (by rw [← hp]; exact hpi) i hi (fun hh => hieq hh.symm) hoi ⟨ha, hp⟩
    rw [getD_set_ne _ _ _ _ _ hieq] at hoi hpi ⊢
    rw [getD_set_ne _ _ _ _ _ hjeq] at hoj ⊢
    exact hinv.1 i j hi hj hij hoi hoj hpi
  · intro i hi hfi
    simp only [List.length_set] at hi
    by_cases hieq : id = i
    · subst hieq
      rw [getD_set_self _ _ _ _ (by omega)] at hfi
      rw [hopen] at hfi
      cases hfi
    · rw [getD_set_ne _ _ _ _ _ hieq] at hfi ⊢
      exact hinv.2 i hi hfi

/-- Every table-modifying UDP operation preserves the endpoint-uniqueness
invariant. -/
theorem udp_step_inv (t t' : List UdpPcb) (hstep : UdpStep t t') (hinv : UdpInv t) :
    UdpInv t' := by
  cases hstep with
  | openStep i t2 h =>
    unfold udp_pcb_alloc at h
    split at h
    · cases h
    rename_i k hff
    obtain ⟨_, hlen, hfree⟩ := udpFirstFree_some t 0 k hff
    simp only [Nat.sub_zero] at hlen hfree
    have hcl : t.getD k udpPcbCleared = udpPcbCleared := hinv.2 k hlen hfree
    cases h
    refine udpInv_set_open t _ _ hinv hlen rfl ?_
    intro hp
    rw [hcl] at hp
    exact absurd rfl hp
  | closeStep id ok t2 h =>
    unfold udp_close at h
    cases hget : udp_pcb_get t id with
    | none => rw [hget] at h; cases h
    | some pcb =>
      rw [hget] at h
      cases h
      unfold udp_pcb_release
      by_cases hok : ok = true
      · rw [if_pos hok]
        exact udpInv_set_nonopen t id udpPcbCleared hinv (by intro hh; cases hh) (fun _ => rfl)
      · rw [if_neg hok]
        refine udpInv_set_nonopen t id _ hinv (by intro hh; cases hh) (by intro hh; cases hh)
  | bindStep id addr port t2 h =>
    unfold udp_bind at h
    cases hget : udp_pcb_get t id with
    | none => rw [hget] at h; cases h
    | some pcb =>
      rw [hget] at h
      cases hsel : udp_pcb_select t addr port with
      | some v => rw [hsel] at h; cases h
      | none =>
        rw [hsel] at h
        cases h
        obtain ⟨hid, hpcb, hopen⟩ := udp_pcb_get_spec t id pcb hget
        refine udpInv_set_open t id _ hinv hid hopen ?_
        intro hp j hj hjid hoj ⟨ha, hpj⟩
        exact udp_pcb_select_from_none addr port t 0 hsel j hj ⟨hoj, Or.inr (Or.inr ha), hpj⟩
  | sendtoStep id u t2 la sp h =>
    unfold udp_sendto_prep at h
    split at h
    · cases h
    rename_i pcb hget
    split at h
    · cases h
    rename_i localAddr hla
    split at h
    · cases h
      exact hinv
    rename_i hport
    split at h
    · cases h
    rename_i sp' hscan
    obtain ⟨hid, hpcb, hopen⟩ := udp_pcb_get_spec t id pcb hget
    have hselnone := udp_port_scan_none t localAddr _ sp' hscan
    cases h
    refine udpInv_set_open t id _ hinv hid hopen ?_
    intro hp j hj hjid hoj ⟨ha, hpj⟩
    refine udp_pcb_select_from_none la sp t 0 hselnone j hj
      ⟨hoj, ?_, hpj⟩
    by_cases hany : pcb.addr = IP_ADDR_ANY
    · rw [hany] at ha
      exact Or.inl ha
    · rw [if_neg hany] at hla
      cases hla
      exact Or.inr (Or.inr ha)
  | recvCloseStep id ok hidlt hcl =>
    unfold udp_pcb_release
    by_cases hok : ok = true
    · rw [if_pos hok]
      exact udpInv_set_nonopen t id udpPcbCleared hinv (by intro hh; cases hh) (fun _ => rfl)
    · rw [if_neg hok]
      exact udpInv_set_nonopen t id _ hinv (by intro hh; cases hh) (by intro hh; cases hh)

theorem udp_initial_inv : UdpInv (List.replicate 16 udpPcbCleared) := by
  constructor
  · intro i j hi hj hij hoi
    simp only [List.length_replicate] at hi
    rw [List.getD_eq_getElem _ _ (by simpa using hi), List.getElem_replicate] at hoi
    cases hoi
  · intro i hi _
    simp only [List.length_replicate] at hi
    rw [List.getD_eq_getElem _ _ (by simpa using hi), List.getElem_replicate]

theorem udp_reachable_inv (t : List UdpPcb) (h : UdpReachable t) : UdpInv t := by
  induction h with
  | refl => exact udp_initial_inv
  | tail _ hbc ih => exact udp_step_inv _ _ hbc ih

/-- C7: in every reachable state of the UDP PCB table no two distinct OPEN
PCBs carry the same bound `(addr, port)` local endpoint (wildcard overlap,
where one of the two carries `0.0.0.0`, remains possible by design and is
the claim's stated exception), and `udp_bind` fails — returning `none` and
producing no new table — whenever another OPEN PCB matches the requested
endpoint under the wildcard rule. -/
theorem udp_bind_endpoint_unique (t : List UdpPcb) (hreach : UdpReachable t) :
    (∀ i j, i < t.length → j < t.length → i ≠ j →
      (t.getD i udpPcbCleared).state = UdpState.open →
      (t.getD j udpPcbCleared).state = UdpState.open →
      (t.getD i udpPcbCleared).port ≠ 0 →
      ¬((t.getD i udpPcbCleared).addr = (t.getD j udpPcbCleared).addr ∧
        (t.getD i udpPcbCleared).port = (t.getD j udpPcbCleared).port)) ∧
    (∀ id addr port,
      (∃ j, j < t.length ∧ j ≠ id ∧ udpMatch addr port (t.getD j udpPcbCleared)) →
      udp_bind t id addr port = none) := by
  refine ⟨(udp_reachable_inv t hreach).1, ?_⟩
  intro id addr port ⟨j, hj, _, hm⟩
  unfold udp_bind
  cases hget : udp_pcb_get t id with
  | none => rfl
  | some pcb =>
    cases hsel : udp_pcb_select t addr port with
    | some v => rfl
    | none => exact absurd hsel (udp_pcb_select_ne_none t addr port j hj hm)

/-- Tables for the C7 witness: open PCB 0, bind it to `(5, 7)`, open
PCB 1. -/
def demoUdpT1 : List UdpPcb :=
  (List.replicate 16 udpPcbCleared).set 0 { state := .open, addr := 0, port := 0 }

def demoUdpT2 : List UdpPcb :=
  demoUdpT1.set 0 { state := .open, addr := 5, port := 7 }

def demoUdpT3 : List UdpPcb :=
  demoUdpT2.set 1 { state := .open, addr := 0, port := 0 }

/-- Witness for C7: after opening two PCBs and binding the first to
`(5, 7)`, binding the second to the same endpoint fails. -/
theorem udp_bind_endpoint_unique_witness : udp_bind demoUdpT3 1 5 7 = none := by
  have hreach : UdpReachable demoUdpT3 :=
    Relation.ReflTransGen.tail
      (Relation.ReflTransGen.tail
        (Relation.ReflTransGen.tail Relation.ReflTransGen.refl
          (UdpStep.openStep (List.replicate 16 udpPcbCleared) 0 demoUdpT1 (by decide)))
        (UdpStep.bindStep demoUdpT1 0 5 7 demoUdpT2 (by decide)))
      (UdpStep.openStep demoUdpT2 1 demoUdpT3 (by decide))
  exact (udp_bind_endpoint_unique demoUdpT3 hreach).2 1 5 7
    ⟨0, by decide, by decide, by decide, by decide, by decide⟩

/-! ## TCP (`tcp.c`)

Sequence-number arithmetic is uint32 (`mod32`), windows uint16, and the
comparisons are the plain unsigned comparisons the C code performs. -/

/-- `TCP_FLG_*`. -/
def TCP_FLG_FIN : Nat := 1

def TCP_FLG_SYN : Nat := 2

def TCP_FLG_RST : Nat := 4

def TCP_FLG_PSH : Nat := 8

def TCP_FLG_ACK : Nat := 16

def TCP_FLG_URG : Nat := 32

/-- `TCP_FLG_ISSET(x, y)`. -/
def tcpFlgIsset (x y : Nat) : Bool := (x &&& 63) &&& y ≠ 0

/-- `TCP_PCB_STATE_*`. -/
inductive TcpState where
  | free
  | closed
  | listen
  | synSent
  | synReceived
  | established
  | finWait1
  | finWait2
  | closing
  | timeWait
  | closeWait
  | lastAck
  deriving Repr, DecidableEq

/-- The modelled `struct tcp_pcb` (scheduler context aside). -/
structure TcpPcb where
  state : TcpState
  localAddr : Nat
  localPort : Nat
  foreignAddr : Nat
  foreignPort : Nat
  sndNxt : Nat
  sndUna : Nat
  sndWnd : Nat
  sndUp : Nat
  sndWl1 : Nat
  sndWl2 : Nat
  iss : Nat
  rcvNxt : Nat
  rcvWnd : Nat
  rcvUp : Nat
  irs : Nat
  mtu : Nat
  mss : Nat
  buf : List Nat
  deriving Repr, DecidableEq

/-- `struct tcp_segment_info`. -/
structure TcpSeg where
  seq : Nat
  ack : Nat
  len : Nat
  wnd : Nat
  up : Nat
  deriving Repr, DecidableEq

/-- One `tcp_output_segment` call: the segment handed to IPv4. -/
structure TcpSentSeg where
  seq : Nat
  ack : Nat
  flg : Nat
  wnd : Nat
  payload : List Nat
  localAddr : Nat
  localPort : Nat
  foreignAddr : Nat
  foreignPort : Nat
  deriving Repr, DecidableEq

/-- `tcp_output_segment(seq, ack, flg, wnd, data, len, local, foreign)`. -/
def tcp_output_segment (seq ack flg wnd : Nat) (payload : List Nat)
    (lA lP fA fP : Nat) : TcpSentSeg :=
  ⟨seq, ack, flg, wnd, payload, lA, lP, fA, fP⟩

/-- `tcp_output(pcb, flg, data, len)`: a SYN is sent with `seq = iss`,
anything else with `seq = snd.nxt`; `ack = rcv.nxt` and `wnd = rcv.wnd`. -/
def tcp_output (pcb : TcpPcb) (flg : Nat) (payload : List Nat) : TcpSentSeg :=
  tcp_output_segment (if tcpFlgIsset flg TCP_FLG_SYN then pcb.iss else pcb.sndNxt)
    pcb.rcvNxt flg pcb.rcvWnd payload
    pcb.localAddr pcb.localPort pcb.foreignAddr pcb.foreignPort

/-- The segment-acceptability test (1st check of SEGMENT ARRIVES) exactly
as coded, with uint32 window-edge additions. -/
def tcpAcceptable (pcb : TcpPcb) (seg : TcpSeg) : Bool :=
  if seg.len = 0 then
    if pcb.rcvWnd = 0 then seg.seq = pcb.rcvNxt
    else pcb.rcvNxt ≤ seg.seq ∧ seg.seq < mod32 (pcb.rcvNxt + pcb.rcvWnd)
  else
    if pcb.rcvWnd = 0 then false
    else
      (pcb.rcvNxt ≤ seg.seq ∧ seg.seq < mod32 (pcb.rcvNxt + pcb.rcvWnd)) ∨
      (pcb.rcvNxt ≤ sub32 (seg.seq + seg.len) 1 ∧
       sub32 (seg.seq + seg.len) 1 < mod32 (pcb.rcvNxt + pcb.rcvWnd))

/-- What one `tcp_segment_arrives` call produces: the PCB afterwards (the
selected one, untouched when the handler drops), the segments sent, and
the number of `sched_wakeup` calls. -/
structure ArrivesOut where
  pcb : Option TcpPcb
  sent : List TcpSentSeg
  wakeups : Nat
  deriving Repr, DecidableEq

/-- The no-PCB / CLOSED answer of `tcp_segment_arrives`. -/
def tcpArrivesReset (pcb? : Option TcpPcb) (seg : TcpSeg) (flags : Nat)
    (lA lP fA fP : Nat) : ArrivesOut :=
  if tcpFlgIsset flags TCP_FLG_RST then ⟨pcb?, [], 0⟩
  else if ¬tcpFlgIsset flags TCP_FLG_ACK then
    ⟨pcb?, [tcp_output_segment 0 (mod32 (seg.seq + seg.len))
      (TCP_FLG_RST ||| TCP_FLG_ACK) 0 [] lA lP fA fP], 0⟩
  else ⟨pcb?, [tcp_output_segment seg.ack 0 TCP_FLG_RST 0 [] lA lP fA fP], 0⟩

/-- The 7th step of SEGMENT ARRIVES (process the segment text): in
ESTABLISHED, copy an arriving payload into the receive buffer at
`bufsize - rcv.wnd`, advance `rcv.nxt` by `seg.len`, shrink `rcv.wnd`
(uint16), acknowledge and wake waiters. -/
def tcpProcessText (pcb2 : TcpPcb) (seg : TcpSeg) (data : List Nat) (wk : Nat) :
    ArrivesOut :=
  if pcb2.state = TcpState.established ∧ data.length ≠ 0 then
    let pcb3 : TcpPcb :=
      { pcb2 with
        buf := pcb2.buf.take (65535 - pcb2.rcvWnd) ++ data ++
          pcb2.buf.drop (65535 - pcb2.rcvWnd + data.length)
        rcvNxt := mod32 (seg.seq + seg.len)
        rcvWnd := (pcb2.rcvWnd + 65536 - data.length % 65536) % 65536 }
    ⟨some pcb3, [tcp_output pcb3 TCP_FLG_ACK []], wk + 1⟩
  else ⟨some pcb2, [], wk⟩

/-- The 5th-check ACK processing for the ESTABLISHED case (also entered by
the SYN_RECEIVED fallthrough, with `wk = 1` wakeup already performed):
advance `snd.una` on a new acknowledgment, update the send window on the
`wl1`/`wl2` test, ignore duplicates, answer an ACK beyond `snd.nxt` with a
pure ACK and stop; then process the segment text.  States without a `case`
label skip straight to the text step. -/
def tcp_est_ack (wk : Nat) (pcb1 : TcpPcb) (seg : TcpSeg) (data : List Nat) :
    ArrivesOut :=
  if pcb1.state = TcpState.established then
    if pcb1.sndUna < seg.ack ∧ seg.ack ≤ pcb1.sndNxt then
      tcpProcessText
        (if pcb1.sndWl1 < seg.seq ∨ (pcb1.sndWl1 = seg.seq ∧ pcb1.sndWl2 ≤ seg.ack) then
          { pcb1 with sndUna := seg.ack, sndWnd := seg.wnd, sndWl1 := seg.seq
                      sndWl2 := seg.ack }
        else { pcb1 with sndUna := seg.ack })
        seg data wk
    else if seg.ack < pcb1.sndUna then tcpProcessText pcb1 seg data wk
    else if pcb1.sndNxt < seg.ack then
      ⟨some pcb1, [tcp_output pcb1 TCP_FLG_ACK []], wk⟩
    else tcpProcessText pcb1 seg data wk
  else tcpProcessText pcb1 seg data wk

/-- The body of `tcp_segment_arrives` once a live PCB is selected. -/
def tcp_segment_arrives_pcb (pcb : TcpPcb) (seg : TcpSeg) (flags : Nat)
    (data : List Nat) (lA lP fA fP rand : Nat) : ArrivesOut :=
  if pcb.state = TcpState.closed then tcpArrivesReset (some pcb) seg flags lA lP fA fP
  else if pcb.state = TcpState.listen then
    if tcpFlgIsset flags TCP_FLG_RST then ⟨some pcb, [], 0⟩
    else if tcpFlgIsset flags TCP_FLG_ACK then
      ⟨some pcb, [tcp_output_segment seg.ack 0 TCP_FLG_RST 0 [] lA lP fA fP], 0⟩
    else if tcpFlgIsset flags TCP_FLG_SYN then
      let pcb1 : TcpPcb :=
        { pcb with localAddr := lA, localPort := lP, foreignAddr := fA, foreignPort := fP
                   rcvWnd := 65535, rcvNxt := mod32 (seg.seq + 1), irs := seg.seq
                   iss := rand }
      let out := tcp_output pcb1 (TCP_FLG_SYN ||| TCP_FLG_ACK) []
      ⟨some { pcb1 with sndNxt := mod32 (pcb1.iss + 1), sndUna := pcb1.iss
                        state := TcpState.synReceived },
       [out], 0⟩
    else ⟨some pcb, [], 0⟩
  else if pcb.state = TcpState.synSent then ⟨some pcb, [], 0⟩
  else if (pcb.state = TcpState.synReceived ∨ pcb.state = TcpState.established) ∧
      tcpAcceptable pcb seg = false then
    if ¬tcpFlgIsset flags TCP_FLG_RST then
      ⟨some pcb, [tcp_output pcb TCP_FLG_ACK []], 0⟩
    else ⟨some pcb, [], 0⟩
  else if ¬tcpFlgIsset flags TCP_FLG_ACK then ⟨some pcb, [], 0⟩
  else if pcb.state = TcpState.synReceived ∧
      ¬(pcb.sndUna ≤ seg.ack ∧ seg.ack ≤ pcb.sndNxt) then
    ⟨some pcb, [tcp_output_segment seg.ack 0 TCP_FLG_RST 0 [] lA lP fA fP], 0⟩
  else if pcb.state = TcpState.synReceived then
    tcp_est_ack 1 { pcb with state := TcpState.established } seg data
  else
    tcp_est_ack 0 pcb seg data

/-- `tcp_segment_arrives(seg, flags, data, len, local, foreign)` for the
PCB `tcp_pcb_select` returned (`none` when there is no PCB); `rand` is the
`random()` draw used for `iss` on a LISTEN-state SYN.  The SYN_RECEIVED
acknowledgment case falls through into the ESTABLISHED processing, as the
C `switch` does. -/
def tcp_segment_arrives (pcb? : Option TcpPcb) (seg : TcpSeg) (flags : Nat)
    (data : List Nat) (lA lP fA fP rand : Nat) : ArrivesOut :=
  match pcb? with
  | none => tcpArrivesReset none seg flags lA lP fA fP
  | some pcb => tcp_segment_arrives_pcb pcb seg flags data lA lP fA fP rand

theorem tcpProcessText_shape (p : TcpPcb) (seg : TcpSeg) (data : List Nat) (wk : Nat) :
    ∃ pcb', (tcpProcessText p seg data wk).pcb = some pcb' ∧ pcb'.state = p.state ∧
      wk ≤ (tcpProcessText p seg data wk).wakeups := by
  unfold tcpProcessText
  split
  · exact ⟨_, rfl, rfl, Nat.le_succ wk⟩
  · exact ⟨p, rfl, rfl, Nat.le_refl _⟩

theorem tcp_est_ack_shape (wk : Nat) (pcb1 : TcpPcb) (seg : TcpSeg) (data : List Nat)
    (hst : pcb1.state = TcpState.established) :
    ∃ pcb', (tcp_est_ack wk pcb1 seg data).pcb = some pcb' ∧
      pcb'.state = TcpState.established ∧ wk ≤ (tcp_est_ack wk pcb1 seg data).wakeups := by
  unfold tcp_est_ack
  rw [if_pos hst]
  split
  · obtain ⟨p', h1, h2, h3⟩ := tcpProcessText_shape _ seg data wk
    refine ⟨p', h1, ?_, h3⟩
    rw [h2]
    split <;> exact hst
  split
  · obtain ⟨p', h1, h2, h3⟩ := tcpProcessText_shape pcb1 seg data wk
    exact ⟨p', h1, by rw [h2]; exact hst, h3⟩
  split
  · exact ⟨pcb1, rfl, hst, Nat.le_refl _⟩
  · obtain ⟨p', h1, h2, h3⟩ := tcpProcessText_shape pcb1 seg data wk
    exact ⟨p', h1, by rw [h2]; exact hst, h3⟩

/-- C1 (amended): a PCB in SYN_RECEIVED receiving an acceptable segment
with ACK set moves to ESTABLISHED and wakes its waiters when `seg.ack` lies
in the closed interval `[snd.una, snd.nxt]` (the code tests
`snd.una <= seg.ack`, not the half-open interval of the claim); otherwise a
`(seq=seg.ack, ack=0, RST)` segment is sent and the PCB is unchanged. -/
theorem tcp_synrcvd_ack_correct (pcb : TcpPcb) (seg : TcpSeg) (flags : Nat)
    (data : List Nat) (lA lP fA fP rand : Nat)
    (hstate : pcb.state = TcpState.synReceived)
    (hacc : tcpAcceptable pcb seg = true)
    (hack : tcpFlgIsset flags TCP_FLG_ACK = true) :
    ((pcb.sndUna ≤ seg.ack ∧ seg.ack ≤ pcb.sndNxt) →
      ∃ pcb', (tcp_segment_arrives (some pcb) seg flags data lA lP fA fP rand).pcb
          = some pcb' ∧
        pcb'.state = TcpState.established ∧
        1 ≤ (tcp_segment_arrives (some pcb) seg flags data lA lP fA fP rand).wakeups) ∧
    (¬(pcb.sndUna ≤ seg.ack ∧ seg.ack ≤ pcb.sndNxt) →
      tcp_segment_arrives (some pcb) seg flags data lA lP fA fP rand =
        ⟨some pcb, [tcp_output_segment seg.ack 0 TCP_FLG_RST 0 [] lA lP fA fP], 0⟩) := by
  have harr : tcp_segment_arrives (some pcb) seg flags data lA lP fA fP rand =
      tcp_segment_arrives_pcb pcb seg flags data lA lP fA fP rand := rfl
  have hred : tcp_segment_arrives_pcb pcb seg flags data lA lP fA fP rand =
      (if pcb.state = TcpState.synReceived ∧
          ¬(pcb.sndUna ≤ seg.ack ∧ seg.ack ≤ pcb.sndNxt) then
        ⟨some pcb, [tcp_output_segment seg.ack 0 TCP_FLG_RST 0 [] lA lP fA fP], 0⟩
      else if pcb.state = TcpState.synReceived then
        tcp_est_ack 1 { pcb with state := TcpState.established } seg data
      else tcp_est_ack 0 pcb seg data) := by
    unfold tcp_segment_arrives_pcb
    rw [if_neg (show ¬pcb.state = TcpState.closed by rw [hstate]; decide),
      if_neg (show ¬pcb.state = TcpState.listen by rw [hstate]; decide),
      if_neg (show ¬pcb.state = TcpState.synSent by rw [hstate]; decide),
      if_neg (show ¬((pcb.state = TcpState.synReceived ∨ pcb.state = TcpState.established) ∧
          tcpAcceptable pcb seg = false) by
        rw [hacc]
        rintro ⟨-, hh⟩
        cases hh),
      if_neg (show ¬¬(tcpFlgIsset flags TCP_FLG_ACK = true) by
        rw [hack]
        exact fun hh => hh rfl)]
  constructor
  · intro hrange
    rw [harr, hred,
      if_neg (show ¬(pcb.state = TcpState.synReceived ∧
          ¬(pcb.sndUna ≤ seg.ack ∧ seg.ack ≤ pcb.sndNxt)) from fun hh => hh.2 hrange),
      if_pos hstate]
    exact tcp_est_ack_shape 1 _ seg data rfl
  · intro hrange
    rw [harr, hred, if_pos ⟨hstate, hrange⟩]

/-- A PCB freshly moved to SYN_RECEIVED (iss 100, so `snd.una = 100`,
`snd.nxt = 101`). -/
def demoSynRcvdPcb : TcpPcb :=
  { state := .synReceived, localAddr := 1, localPort := 7, foreignAddr := 2, foreignPort := 9
    sndNxt := 101, sndUna := 100, sndWnd := 8192, sndUp := 0, sndWl1 := 0, sndWl2 := 0
    iss := 100, rcvNxt := 50, rcvWnd := 65535, rcvUp := 0, irs := 49, mtu := 1500
    mss := 1460, buf := [] }

/-- The handshake-completing ACK (`ack = snd.nxt`). -/
def demoAckSeg : TcpSeg := { seq := 50, ack := 101, len := 0, wnd := 8192, up := 0 }

/-- Witness for C1 (amended): the handshake ACK moves `demoSynRcvdPcb` to
ESTABLISHED and wakes a waiter. -/
theorem tcp_synrcvd_ack_correct_witness :
    ∃ pcb', (tcp_segment_arrives (some demoSynRcvdPcb) demoAckSeg 16 [] 1 7 2 9 0).pcb
        = some pcb' ∧
      pcb'.state = TcpState.established ∧
      1 ≤ (tcp_segment_arrives (some demoSynRcvdPcb) demoAckSeg 16 [] 1 7 2 9 0).wakeups :=
  (tcp_synrcvd_ack_correct demoSynRcvdPcb demoAckSeg 16 [] 1 7 2 9 0 rfl (by decide)
    (by decide)).1 (by decide)

/-- An acceptable ACK segment whose `ack` equals `snd.una` exactly — the
boundary the claim places outside `(snd.una, snd.nxt]`. -/
def demoBoundarySeg : TcpSeg := { seq := 50, ack := 100, len := 0, wnd := 8192, up := 0 }

/-- C1 counterexample: with `seg.ack = snd.una` (outside the claimed
half-open interval, inside the code's closed one) the PCB still moves to
ESTABLISHED with a wakeup and no RST is sent, refuting the claim as
stated. -/
theorem tcp_synrcvd_ack_boundary_cex :
    ¬(demoSynRcvdPcb.sndUna < demoBoundarySeg.ack) ∧
    tcp_segment_arrives (some demoSynRcvdPcb) demoBoundarySeg 16 [] 1 7 2 9 0 =
      ⟨some { demoSynRcvdPcb with state := TcpState.established }, [], 1⟩ := by decide

/-- What one `sched_sleep` inside `tcp_send` comes back with: a
cancellation (`sched_interrupt`, returning -1) or a wakeup; while the mutex
was dropped other threads may have rewritten the PCB, so a wakeup carries
the PCB as the sleeper then sees it. -/
inductive SleepResult where
  | interrupted
  | resumed (pcb : TcpPcb)
  deriving Repr, DecidableEq

/-- `tcp_send`'s outcome. -/
inductive SendRes where
  | err
  | ok (n : Nat)
  deriving Repr, DecidableEq

/-- Result of `tcp_send`: return value, the PCB afterwards (`none` when the
error path released it), and the segments emitted in order. -/
structure SendResult where
  res : SendRes
  pcb : Option TcpPcb
  segs : List TcpSentSeg
  deriving Repr, DecidableEq

/-- The send loop of `tcp_send` (from `RETRY` onwards the state is known
ESTABLISHED and `mss = mtu - (IP_HDR_SIZE_MIN + sizeof(struct tcp_hdr))`).
While bytes remain: `cap = snd.wnd - (snd.nxt - snd.una)` in the C
integer types; a zero cap sleeps (consuming an event: a cancellation
returns -1 with no progress and the byte count otherwise; a wakeup
re-enters at `RETRY`, re-checking the state and recomputing the MSS);
otherwise `min(min(mss, len - sent), cap)` bytes go out with `ACK|PSH`
(`outputOk` false models an `ip_output` failure, which releases the PCB)
and `snd.nxt` advances.  `fuel` bounds the iterations (the C loop has no
such bound; every theorem below supplies enough). -/
def tcp_send_inner (fuel : Nat) (pcb : TcpPcb) (data : List Nat) (sent : Nat) (mss : Nat)
    (events : List SleepResult) (outputOk : Bool) (mtuOf : Option Nat) : SendResult :=
  match fuel with
  | 0 => ⟨.ok sent, some pcb, []⟩
  | fuel + 1 =>
    if sent < data.length then
      if sub64 pcb.sndWnd (sub32 pcb.sndNxt pcb.sndUna) = 0 then
        match events with
        | [] => ⟨.ok sent, some pcb, []⟩
        | .interrupted :: _ =>
          if sent = 0 then ⟨.err, some pcb, []⟩ else ⟨.ok sent, some pcb, []⟩
        | .resumed pcb' :: rest =>
          if pcb'.state = TcpState.established then
            match mtuOf with
            | none => ⟨.err, some pcb', []⟩
            | some mtu => tcp_send_inner fuel pcb' data sent (sub64 mtu 40) rest outputOk mtuOf
          else ⟨.err, some pcb', []⟩
      else
        let slen := min (min mss (data.length - sent))
          (sub64 pcb.sndWnd (sub32 pcb.sndNxt pcb.sndUna))
        let seg := tcp_output pcb (TCP_FLG_ACK ||| TCP_FLG_PSH) ((data.drop sent).take slen)
        if outputOk then
          let r := tcp_send_inner fuel { pcb with sndNxt := mod32 (pcb.sndNxt + slen) }
            data (sent + slen) mss events outputOk mtuOf
          ⟨r.res, r.pcb, seg :: r.segs⟩
        else ⟨.err, none, [seg]⟩
    else ⟨.ok sent, some pcb, []⟩

/-- `tcp_send(id, data, len)` for the PCB `tcp_pcb_get` found (`none` when
the id is bad); `mtuOf` is the routed interface's device MTU
(`ip_route_get_iface` on the foreign address; `none` when no interface is
found). -/
def tcp_send (pcb? : Option TcpPcb) (data : List Nat) (events : List SleepResult)
    (outputOk : Bool) (mtuOf : Option Nat) (fuel : Nat) : SendResult :=
  match pcb? with
  | none => ⟨.err, none, []⟩
  | some pcb =>
    if pcb.state = TcpState.established then
      match mtuOf with
      | none => ⟨.err, some pcb, []⟩
      | some mtu => tcp_send_inner fuel pcb data 0 (sub64 mtu 40) events outputOk mtuOf
    else ⟨.err, some pcb, []⟩

theorem tcp_send_inner_succ (fuel : Nat) (pcb : TcpPcb) (data : List Nat)
    (sent mss : Nat) (events : List SleepResult) (outputOk : Bool) (mtuOf : Option Nat) :
    tcp_send_inner (fuel + 1) pcb data sent mss events outputOk mtuOf =
      (if sent < data.length then
        if sub64 pcb.sndWnd (sub32 pcb.sndNxt pcb.sndUna) = 0 then
          match events with
          | [] => ⟨.ok sent, some pcb, []⟩
          | .interrupted :: _ =>
            if sent = 0 then ⟨.err, some pcb, []⟩ else ⟨.ok sent, some pcb, []⟩
          | .resumed pcb' :: rest =>
            if pcb'.state = TcpState.established then
              match mtuOf with
              | none => ⟨.err, some pcb', []⟩
              | some mtu =>
                tcp_send_inner fuel pcb' data sent (sub64 mtu 40) rest outputOk mtuOf
            else ⟨.err, some pcb', []⟩
        else
          let slen := min (min mss (data.length - sent))
            (sub64 pcb.sndWnd (sub32 pcb.sndNxt pcb.sndUna))
          let seg := tcp_output pcb (TCP_FLG_ACK ||| TCP_FLG_PSH)
            ((data.drop sent).take slen)
          if outputOk then
            let r := tcp_send_inner fuel { pcb with sndNxt := mod32 (pcb.sndNxt + slen) }
              data (sent + slen) mss events outputOk mtuOf
            ⟨r.res, r.pcb, seg :: r.segs⟩
          else ⟨.err, none, [seg]⟩
      else ⟨.ok sent, some pcb, []⟩) := rfl

/-- C5: `tcp_send` on an ESTABLISHED PCB uses
`MSS = mtu - (20-byte IP header + 20-byte TCP header)`; each loop step with
unsent bytes computes `cap = snd.wnd - (snd.nxt - snd.una)` (stated here
under the no-underflow side conditions the C unsigned subtractions assume),
sleeps when it is zero — a cancelled sleep returns the count of bytes
already sent rather than an error, and only errors when nothing was sent —
and otherwise emits one `ACK|PSH` segment of `min(mss, remaining, cap)`
bytes, advancing `snd.nxt` by that amount; with nothing left to send the
byte count is returned. -/
theorem tcp_send_correct :
    (∀ (pcb : TcpPcb) (data : List Nat) (events : List SleepResult) (outputOk : Bool)
        (mtu fuel : Nat),
      pcb.state = TcpState.established → 40 ≤ mtu → mtu < 18446744073709551616 →
      tcp_send (some pcb) data events outputOk (some mtu) fuel =
        tcp_send_inner fuel pcb data 0 (mtu - 40) events outputOk (some mtu)) ∧
    (∀ (fuel : Nat) (pcb : TcpPcb) (data : List Nat) (sent mss : Nat)
        (events : List SleepResult) (outputOk : Bool) (mtuOf : Option Nat),
      sent < data.length →
      sub32 pcb.sndNxt pcb.sndUna ≤ pcb.sndWnd →
      pcb.sndWnd < 18446744073709551616 →
      pcb.sndWnd - sub32 pcb.sndNxt pcb.sndUna = 0 →
      tcp_send_inner (fuel + 1) pcb data sent mss
          (SleepResult.interrupted :: events) outputOk mtuOf =
        if sent = 0 then ⟨.err, some pcb, []⟩ else ⟨.ok sent, some pcb, []⟩) ∧
    (∀ (fuel : Nat) (pcb pcb' : TcpPcb) (data : List Nat) (sent mss mtu : Nat)
        (rest : List SleepResult) (outputOk : Bool),
      sent < data.length →
      sub32 pcb.sndNxt pcb.sndUna ≤ pcb.sndWnd →
      pcb.sndWnd < 18446744073709551616 →
      pcb.sndWnd - sub32 pcb.sndNxt pcb.sndUna = 0 →
      pcb'.state = TcpState.established → 40 ≤ mtu → mtu < 18446744073709551616 →
      tcp_send_inner (fuel + 1) pcb data sent mss
          (SleepResult.resumed pcb' :: rest) outputOk (some mtu) =
        tcp_send_inner fuel pcb' data sent (mtu - 40) rest outputOk (some mtu)) ∧
    (∀ (fuel : Nat) (pcb : TcpPcb) (data : List Nat) (sent mss : Nat)
        (events : List SleepResult) (mtuOf : Option Nat),
      sent < data.length →
      sub32 pcb.sndNxt pcb.sndUna ≤ pcb.sndWnd →
      pcb.sndWnd < 18446744073709551616 →
      0 < pcb.sndWnd - sub32 pcb.sndNxt pcb.sndUna →
      tcp_send_inner (fuel + 1) pcb data sent mss events true mtuOf =
        { res := (tcp_send_inner fuel
            { pcb with sndNxt := mod32 (pcb.sndNxt + min (min mss (data.length - sent))
                (pcb.sndWnd - sub32 pcb.sndNxt pcb.sndUna)) }
            data
            (sent + min (min mss (data.length - sent))
              (pcb.sndWnd - sub32 pcb.sndNxt pcb.sndUna))
            mss events true mtuOf).res
          pcb := (tcp_send_inner fuel
            { pcb with sndNxt := mod32 (pcb.sndNxt + min (min mss (data.length - sent))
                (pcb.sndWnd - sub32 pcb.sndNxt pcb.sndUna)) }
            data
            (sent + min (min mss (data.length - sent))
              (pcb.sndWnd - sub32 pcb.sndNxt pcb.sndUna))
            mss events true mtuOf).pcb
          segs := tcp_output pcb (TCP_FLG_ACK ||| TCP_FLG_PSH)
              ((data.drop sent).take (min (min mss (data.length - sent))
                (pcb.sndWnd - sub32 pcb.sndNxt pcb.sndUna))) ::
            (tcp_send_inner fuel
              { pcb with sndNxt := mod32 (pcb.sndNxt + min (min mss (data.length - sent))
                  (pcb.sndWnd - sub32 pcb.sndNxt pcb.sndUna)) }
              data
              (sent + min (min mss (data.length - sent))
                (pcb.sndWnd - sub32 pcb.sndNxt pcb.sndUna))
              mss events true mtuOf).segs }) ∧
    (∀ (fuel : Nat) (pcb : TcpPcb) (data : List Nat) (sent mss : Nat)
        (events : List SleepResult) (outputOk : Bool) (mtuOf : Option Nat),
      data.length ≤ sent →
      tcp_send_inner (fuel + 1) pcb data sent mss events outputOk mtuOf =
        ⟨.ok sent, some pcb, []⟩) := by
  refine ⟨?_, ?_, ?_, ?_, ?_⟩
  · intro pcb data events outputOk mtu fuel hst h40 hlt
    have h0 : tcp_send (some pcb) data events outputOk (some mtu) fuel =
        if pcb.state = TcpState.established then
          tcp_send_inner fuel pcb data 0 (sub64 mtu 40) events outputOk (some mtu)
        else ⟨.err, some pcb, []⟩ := rfl
    rw [h0, if_pos hst, sub64_of_le h40 hlt]
  · intro fuel pcb data sent mss events outputOk mtuOf hsent hle hlt hz
    have hcap : sub64 pcb.sndWnd (sub32 pcb.sndNxt pcb.sndUna) = 0 := by
      rw [sub64_of_le hle hlt]
      exact hz
    rw [tcp_send_inner_succ, if_pos hsent, if_pos hcap]
  · intro fuel pcb pcb' data sent mss mtu rest outputOk hsent hle hlt hz hst' h40 hmlt
    have hcap : sub64 pcb.sndWnd (sub32 pcb.sndNxt pcb.sndUna) = 0 := by
      rw [sub64_of_le hle hlt]
      exact hz
    rw [tcp_send_inner_succ, if_pos hsent, if_pos hcap]
    change (if pcb'.state = TcpState.established then
        tcp_send_inner fuel pcb' data sent (sub64 mtu 40) rest outputOk (some mtu)
      else ⟨.err, some pcb', []⟩) =
      tcp_send_inner fuel pcb' data sent (mtu - 40) rest outputOk (some mtu)
    rw [if_pos hst', sub64_of_le h40 hmlt]
  · intro fuel pcb data sent mss events mtuOf hsent hle hlt hpos
    have hcap : sub64 pcb.sndWnd (sub32 pcb.sndNxt pcb.sndUna) =
        pcb.sndWnd - sub32 pcb.sndNxt pcb.sndUna := sub64_of_le hle hlt
    have hcapne : ¬(sub64 pcb.sndWnd (sub32 pcb.sndNxt pcb.sndUna) = 0) := by
      rw [hcap]
      omega
    rw [tcp_send_inner_succ, if_pos hsent, if_neg hcapne, hcap]
    rfl
  · intro fuel pcb data sent mss events outputOk mtuOf hge
    rw [tcp_send_inner_succ, if_neg (Nat.not_lt.mpr hge)]

/-- An ESTABLISHED PCB with window room (in-flight 1 of 8192). -/
def demoEstPcb : TcpPcb := { demoSynRcvdPcb with state := .established }

/-- An ESTABLISHED PCB whose send window is full (in-flight 5 of 5). -/
def demoFullPcb : TcpPcb :=
  { demoSynRcvdPcb with state := .established, sndWnd := 5, sndUna := 100, sndNxt := 105 }

/-- Witness for C5: with MTU 42 the MSS is 2, and a cancelled sleep on the
full-window PCB after one byte of progress returns 1, not an error. -/
theorem tcp_send_correct_witness :
    tcp_send (some demoEstPcb) [1, 2, 3] [] true (some 42) 5 =
      tcp_send_inner 5 demoEstPcb [1, 2, 3] 0 2 [] true (some 42) ∧
    tcp_send_inner 3 demoFullPcb [1, 2] 1 2 [SleepResult.interrupted] true (some 42) =
      ⟨.ok 1, some demoFullPcb, []⟩ := by
  constructor
  · exact tcp_send_correct.1 demoEstPcb [1, 2, 3] [] true 42 5 rfl (by decide) (by decide)
  · have h := tcp_send_correct.2.1 2 demoFullPcb [1, 2] 1 2 [] true (some 42)
      (by decide) (by decide) (by decide) (by decide)
    exact h.trans (if_neg (by decide))

/-! ## IPv4 address text (`ip.c`, `ip_addr_pton` / `ip_addr_ntop`)

Strings are lists of characters; the NUL terminator is the end of the
list.  `ip_addr_pton` leans on C `strtol(sp, &ep, 10)`, which skips
leading whitespace, accepts an optional sign, and clamps to
`LONG_MIN`/`LONG_MAX` on overflow; with no digits it returns 0 with
`ep = sp`. -/

/-- `isspace` for the default locale. -/
def isSpaceC (c : Char) : Bool :=
  c.toNat = 32 ∨ c.toNat = 9 ∨ c.toNat = 10 ∨ c.toNat = 11 ∨ c.toNat = 12 ∨ c.toNat = 13

/-- A decimal digit. -/
def isDigitC (c : Char) : Bool := 48 ≤ c.toNat ∧ c.toNat ≤ 57

/-- Digit value. -/
def digitVal (c : Char) : Nat := c.toNat - 48

/-- Whether a strtol scan finds at least one digit. -/
def digitStart : List Char → Bool
  | [] => false
  | c :: _ => isDigitC c

/-- Consume a maximal digit run, accumulating the value. -/
def readDigitsAux : List Char → Nat → Nat × List Char
  | [], acc => (acc, [])
  | c :: r, acc =>
    if isDigitC c then readDigitsAux r (acc * 10 + digitVal c) else (acc, c :: r)

/-- `LONG_MAX` clamping of a non-negative accumulated value. -/
def intClampPos (v : Nat) : Int :=
  if v ≤ 9223372036854775807 then (v : Int) else 9223372036854775807

/-- `LONG_MIN` clamping of a negated accumulated value. -/
def intClampNeg (v : Nat) : Int :=
  if v ≤ 9223372036854775808 then -(v : Int) else -9223372036854775808

/-- The scan of `strtol` after whitespace removal (`s` is the original
pointer, returned unconsumed when no digits follow). -/
def strtol10_body (s : List Char) : List Char → Int × List Char
  | [] => (0, s)
  | c :: r =>
    if c.toNat = 45 then
      if digitStart r then
        (intClampNeg (readDigitsAux r 0).1, (readDigitsAux r 0).2)
      else (0, s)
    else if c.toNat = 43 then
      if digitStart r then
        (intClampPos (readDigitsAux r 0).1, (readDigitsAux r 0).2)
      else (0, s)
    else if isDigitC c then
      (intClampPos (readDigitsAux (c :: r) 0).1, (readDigitsAux (c :: r) 0).2)
    else (0, s)

/-- Modelled from the spec: `strtol(sp, &ep, 10)` (libc, outside the
sources): skip whitespace, optional sign, maximal digit run with
`LONG_MIN`/`LONG_MAX` clamping; value 0 and `ep = sp` when no digits. -/
def strtol10 (s : List Char) : Int × List Char :=
  strtol10_body s (s.dropWhile isSpaceC)

/-- `ip_addr_pton`'s octet loop, `count` octets still to read (4 at entry,
`count = 1` is `idx == 3`): read a number, reject values outside 0..255 or
an empty scan (`ep == sp`), then require `'.'` between octets and the
terminator after the last, stepping past the dot. -/
def pton_go : Nat → List Char → Option (List Nat)
  | 0, _ => some []
  | count + 1, sp =>
    if (strtol10 sp).1 < 0 ∨ 255 < (strtol10 sp).1 then none
    else if (strtol10 sp).2 = sp then none
    else if count = 0 then
      if (strtol10 sp).2 ≠ [] then none else some [(strtol10 sp).1.toNat]
    else
      match (strtol10 sp).2 with
      | [] => none
      | e :: rest =>
        if e = '.' then
          match pton_go count rest with
          | none => none
          | some os => some ((strtol10 sp).1.toNat :: os)
        else none

/-- `ip_addr_pton(p, n)`: the stored 4 bytes on success. -/
def ip_addr_pton (s : List Char) : Option (List Nat) := pton_go 4 s

/-- The canonical decimal numeral of a byte value (`snprintf` `%d` for
0..255; values are below 1000 here). -/
def decRepr (n : Nat) : List Char :=
  if n < 10 then [Char.ofNat (48 + n)]
  else if n < 100 then [Char.ofNat (48 + n / 10), Char.ofNat (48 + n % 10)]
  else [Char.ofNat (48 + n / 100), Char.ofNat (48 + n / 10 % 10), Char.ofNat (48 + n % 10)]

/-- `ip_addr_ntop(n, p, size)`: `"%d.%d.%d.%d"` over the 4 stored bytes. -/
def ip_addr_ntop (octets : List Nat) : List Char :=
  decRepr (octets.getD 0 0) ++ '.' ::
  (decRepr (octets.getD 1 0) ++ '.' ::
  (decRepr (octets.getD 2 0) ++ '.' ::
  decRepr (octets.getD 3 0)))

/-- The value of a digit run. -/
def valOf (r : List Char) : Nat := r.foldl (fun a c => a * 10 + digitVal c) 0

/-- Digit runs joined by dots. -/
def joinDots : List (List Char) → List Char
  | [] => []
  | [r] => r
  | r :: rest => r ++ '.' :: joinDots rest

theorem pton_go_succ (count : Nat) (sp : List Char) :
    pton_go (count + 1) sp =
      (if (strtol10 sp).1 < 0 ∨ 255 < (strtol10 sp).1 then none
      else if (strtol10 sp).2 = sp then none
      else if count = 0 then
        if (strtol10 sp).2 ≠ [] then none else some [(strtol10 sp).1.toNat]
      else
        match (strtol10 sp).2 with
        | [] => none
        | e :: rest =>
          if e = '.' then
            match pton_go count rest with
            | none => none
            | some os => some ((strtol10 sp).1.toNat :: os)
          else none) := rfl

theorem readDigitsAux_append (r rest : List Char) (acc : Nat)
    (hdig : ∀ c, c ∈ r → isDigitC c = true) (hrest : digitStart rest = false) :
    readDigitsAux (r ++ rest) acc =
      (r.foldl (fun a c => a * 10 + digitVal c) acc, rest) := by
  induction r generalizing acc with
  | nil =>
    simp only [List.nil_append, List.foldl_nil]
    match rest, hrest with
    | [], _ => rfl
    | c :: r', hrest =>
      simp only [digitStart] at hrest
      simp [readDigitsAux, hrest]
  | cons c r ih =>
    simp only [List.cons_append, readDigitsAux, List.foldl_cons]
    rw [if_pos (hdig c (List.mem_cons_self _ _))]
    exact ih _ (fun x hx => hdig x (List.mem_cons_of_mem _ hx))

theorem strtol10_digits (r rest : List Char) (hne : r ≠ [])
    (hdig : ∀ c, c ∈ r → isDigitC c = true) (hrest : digitStart rest = false) :
    strtol10 (r ++ rest) = (intClampPos (valOf r), rest) := by
  match r, hne with
  | c :: r', _ =>
    have hc : isDigitC c = true := hdig c (List.mem_cons_self _ _)
    have hcn : 48 ≤ c.toNat ∧ c.toNat ≤ 57 := by simpa [isDigitC] using hc
    unfold strtol10
    rw [show ((c :: r') ++ rest).dropWhile isSpaceC = (c :: r') ++ rest by
      simp [List.dropWhile_cons, show isSpaceC c = false by simp [isSpaceC]; omega]]
    show strtol10_body _ (c :: (r' ++ rest)) = _
    simp only [strtol10_body]
    rw [if_neg (show ¬c.toNat = 45 by omega), if_neg (show ¬c.toNat = 43 by omega),
      if_pos hc, show c :: (r' ++ rest) = (c :: r') ++ rest from rfl,
      readDigitsAux_append (c :: r') rest 0 hdig hrest]
    rfl

theorem intClampPos_not_neg (v : Nat) : ¬intClampPos v < 0 := by
  unfold intClampPos
  split <;> omega

theorem intClampPos_gt255 (v : Nat) : 255 < intClampPos v ↔ 255 < v := by
  unfold intClampPos
  split <;> omega

theorem intClampPos_toNat (v : Nat) (h : v ≤ 255) : (intClampPos v).toNat = v := by
  unfold intClampPos
  rw [if_pos (by omega)]
  omega

theorem pton_go_runs (runs : List (List Char)) (hne : runs ≠ [])
    (hd : ∀ r, r ∈ runs → r ≠ [] ∧ ∀ c, c ∈ r → isDigitC c = true) :
    pton_go runs.length (joinDots runs) =
      if ∀ r, r ∈ runs → valOf r ≤ 255 then some (runs.map valOf) else none := by
  induction runs with
  | nil => exact absurd rfl hne
  | cons r rest ih =>
    obtain ⟨hrne, hrdig⟩ := hd r (List.mem_cons_self _ _)
    cases rest with
    | nil =>
      have hstr : strtol10 (joinDots [r]) = (intClampPos (valOf r), []) := by
        have := strtol10_digits r [] hrne hrdig rfl
        rwa [List.append_nil] at this
      show pton_go (0 + 1) (joinDots [r]) = _
      rw [pton_go_succ]
      simp only [hstr]
      by_cases hv : valOf r ≤ 255
      · rw [if_neg (by
          rintro (h | h)
          · exact intClampPos_not_neg _ h
          · rw [intClampPos_gt255] at h
            omega),
          if_neg (show ¬([] : List Char) = joinDots [r] from fun h => hrne (by
            simpa [joinDots] using h.symm)),
          if_pos (by trivial),
          if_neg (show ¬(([] : List Char) ≠ []) from fun h => h rfl),
          if_pos (show ∀ x, x ∈ [r] → valOf x ≤ 255 by
            intro x hx
            rcases List.mem_singleton.mp hx with h
            rw [h]
            exact hv)]
        rw [intClampPos_toNat _ hv]
        rfl
      · rw [if_pos (Or.inr ((intClampPos_gt255 _).mpr (by omega))),
          if_neg (show ¬∀ x, x ∈ [r] → valOf x ≤ 255 from fun hall =>
            hv (hall r (List.mem_singleton.mpr rfl)))]
    | cons r2 rest2 =>
      have hdots : joinDots (r :: r2 :: rest2) = r ++ '.' :: joinDots (r2 :: rest2) := rfl
      have hstr : strtol10 (joinDots (r :: r2 :: rest2)) =
          (intClampPos (valOf r), '.' :: joinDots (r2 :: rest2)) := by
        rw [hdots]
        exact strtol10_digits r _ hrne hrdig (by simp [digitStart, isDigitC])
      show pton_go ((r2 :: rest2).length + 1) (joinDots (r :: r2 :: rest2)) = _
      rw [pton_go_succ]
      simp only [hstr]
      by_cases hv : valOf r ≤ 255
      · rw [if_neg (by
          rintro (h | h)
          · exact intClampPos_not_neg _ h
          · rw [intClampPos_gt255] at h
            omega),
          if_neg (show ¬('.' :: joinDots (r2 :: rest2)) = joinDots (r :: r2 :: rest2) by
            rw [hdots]
            intro h
            have hlen := congrArg List.length h
            rw [List.length_cons, List.length_append, List.length_cons] at hlen
            exact hrne (List.length_eq_zero.mp (by omega))),
          if_neg (by simp)]
        show (if ('.' : Char) = '.' then
            (match pton_go (r2 :: rest2).length (joinDots (r2 :: rest2)) with
            | none => none
            | some os => some ((intClampPos (valOf r)).toNat :: os))
          else none) =
          if ∀ x ∈ r :: r2 :: rest2, valOf x ≤ 255 then
            some (List.map valOf (r :: r2 :: rest2))
          else none
        rw [if_pos rfl]
        rw [ih (by intro h; cases h) (fun x hx => hd x (List.mem_cons_of_mem _ hx))]
        by_cases hall : ∀ x, x ∈ r2 :: rest2 → valOf x ≤ 255
        · rw [if_pos hall, if_pos (by
            intro x hx
            rcases List.mem_cons.mp hx with h | h
            · rw [h]; exact hv
            · exact hall x h)]
          rw [intClampPos_toNat _ hv]
          rfl
        · rw [if_neg hall, if_neg (fun h => hall (fun x hx =>
            h x (List.mem_cons_of_mem _ hx)))]
      · rw [if_pos (Or.inr ((intClampPos_gt255 _).mpr (by omega))),
          if_neg (fun h => hv (h r (List.mem_cons_self _ _)))]

set_option maxRecDepth 4096 in
/-- The canonical numeral of a byte value is a nonempty digit run with
that value. -/
theorem decRepr_spec : ∀ n, n < 256 →
    decRepr n ≠ [] ∧ (∀ c, c ∈ decRepr n → isDigitC c = true) ∧ valOf (decRepr n) = n := by
  decide

/-- C9 (amended): `ip_addr_pton` accepts every string of four dot-separated
digit runs whose values lie in 0..255 — including non-canonical runs such
as `01` — yielding the four values, and rejects every such string
containing an out-of-range run; `ip_addr_ntop` emits the canonical
dot-decimal form, and the round-trip `pton ∘ ntop = id` holds on it (so
`ntop (pton s) = s` for canonical dot-decimal `s`).  The original claim's
"accepts only dot-decimal, rejecting non-digit characters" is refuted by
the strtol prefix handling (see the counterexample), and the round-trip
fails on non-canonical well-formed strings such as `01.2.3.4`. -/
theorem ip_addr_pton_ntop_correct :
    (∀ a b c d : Nat, a ≤ 255 → b ≤ 255 → c ≤ 255 → d ≤ 255 →
      ip_addr_pton (ip_addr_ntop [a, b, c, d]) = some [a, b, c, d]) ∧
    (∀ runs : List (List Char), runs.length = 4 →
      (∀ r, r ∈ runs → r ≠ [] ∧ ∀ c, c ∈ r → isDigitC c = true) →
      (∀ r, r ∈ runs → valOf r ≤ 255) →
      ip_addr_pton (joinDots runs) = some (runs.map valOf)) ∧
    (∀ runs : List (List Char), runs.length = 4 →
      (∀ r, r ∈ runs → r ≠ [] ∧ ∀ c, c ∈ r → isDigitC c = true) →
      (∃ r, r ∈ runs ∧ 255 < valOf r) →
      ip_addr_pton (joinDots runs) = none) := by
  have hmain : ∀ runs : List (List Char), runs.length = 4 →
      (∀ r, r ∈ runs → r ≠ [] ∧ ∀ c, c ∈ r → isDigitC c = true) →
      ip_addr_pton (joinDots runs) =
        if ∀ r, r ∈ runs → valOf r ≤ 255 then some (runs.map valOf) else none := by
    intro runs hlen hd
    have h := pton_go_runs runs (by intro h; rw [h] at hlen; cases hlen) hd
    rw [hlen] at h
    exact h
  refine ⟨?_, ?_, ?_⟩
  · intro a b c d ha hb hc hd
    have hnt : ip_addr_ntop [a, b, c, d] =
        joinDots [decRepr a, decRepr b, decRepr c, decRepr d] := rfl
    obtain ⟨hna, hda, hva⟩ := decRepr_spec a (by omega)
    obtain ⟨hnb, hdb, hvb⟩ := decRepr_spec b (by omega)
    obtain ⟨hnc, hdc, hvc⟩ := decRepr_spec c (by omega)
    obtain ⟨hnd, hdd, hvd⟩ := decRepr_spec d (by omega)
    rw [hnt, hmain [decRepr a, decRepr b, decRepr c, decRepr d] rfl (by
      intro r hr
      rcases List.mem_cons.mp hr with h | hr
      · rw [h]; exact ⟨hna, hda⟩
      rcases List.mem_cons.mp hr with h | hr
      · rw [h]; exact ⟨hnb, hdb⟩
      rcases List.mem_cons.mp hr with h | hr
      · rw [h]; exact ⟨hnc, hdc⟩
      rcases List.mem_singleton.mp hr with h
      rw [h]; exact ⟨hnd, hdd⟩)]
    rw [if_pos (by
      intro r hr
      rcases List.mem_cons.mp hr with h | hr
      · rw [h, hva]; exact ha
      rcases List.mem_cons.mp hr with h | hr
      · rw [h, hvb]; exact hb
      rcases List.mem_cons.mp hr with h | hr
      · rw [h, hvc]; exact hc
      rcases List.mem_singleton.mp hr with h
      rw [h, hvd]; exact hd)]
    rw [List.map_cons, List.map_cons, List.map_cons, List.map_singleton,
      hva, hvb, hvc, hvd]
  · intro runs hlen hd hall
    rw [hmain runs hlen hd, if_pos hall]
  · intro runs hlen hd ⟨r, hr, hv⟩
    rw [hmain runs hlen hd, if_neg (fun hall => by
      have := hall r hr
      omega)]

/-- Witness for C9 (amended): 192.0.2.1 round-trips. -/
theorem ip_addr_pton_ntop_correct_witness :
    ip_addr_pton (ip_addr_ntop [192, 0, 2, 1]) = some [192, 0, 2, 1] :=
  ip_addr_pton_ntop_correct.1 192 0 2 1 (by omega) (by omega) (by omega) (by omega)

/-- C9 counterexample: `ip_addr_pton` accepts `"-0.0.0.0"`, a string with a
non-digit, non-dot character (strtol consumes the sign), and the round-trip
fails on the well-formed but non-canonical `"01.2.3.4"`: it parses to
1.2.3.4, which `ip_addr_ntop` prints back differently. -/
theorem ip_addr_pton_cex :
    ip_addr_pton (String.toList "-0.0.0.0") = some [0, 0, 0, 0] ∧
    (String.toList "-0.0.0.0").any (fun c => !(isDigitC c || c == '.')) = true ∧
    ip_addr_pton (String.toList "01.2.3.4") = some [1, 2, 3, 4] ∧
    ip_addr_ntop [1, 2, 3, 4] ≠ String.toList "01.2.3.4" := by decide

end Microps
